import Mathlib

/-!
Verification of the EMR normalization service
(`ai_bot/services/emr_filter.py` and `ai_bot/services/report_generator.py`)
against its natural-language specification.

The Python code is shallowly embedded: JSON-like runtime values become the
inductive `Val`, Python dict/attribute access that can raise `AttributeError`
or `TypeError` becomes `Except String`, and the pure string manipulation
(including the regex substitutions of `strip_laterality`,
`_normalize_text` and `_normalize_key_for_dedup`) is implemented over
`List Char`, mirroring the semantics of the CPython `re` module on the
ASCII inputs this service handles.
-/

namespace EmrSpec

/-! ## Basic character and string utilities (ASCII model of Python str) -/

/-- Whitespace characters recognised by Python `str.strip` / regex `\s`
(ASCII fragment). -/
def isWsChar (c : Char) : Bool :=
  c = ' ' || c = '\t' || c = '\n' || c = '\r' || c = '\x0b' || c = '\x0c'

/-- Word characters for regex `\b` boundaries (ASCII fragment of `\w`). -/
def isWordChar (c : Char) : Bool :=
  (('a' ≤ c && c ≤ 'z') || ('A' ≤ c && c ≤ 'Z') || ('0' ≤ c && c ≤ '9') || c = '_')

/-- Python `str.lower` (ASCII fragment). -/
def lowerL (cs : List Char) : List Char := cs.map Char.toLower

def lowerStr (s : String) : String := ⟨lowerL s.data⟩

/-- `p` is a prefix of `s`. -/
def isPre : List Char → List Char → Bool
  | [], _ => true
  | _ :: _, [] => false
  | p :: ps, c :: cs => p = c && isPre ps cs

/-- Python `pat in hay` substring test. -/
def containsL (hay pat : List Char) : Bool :=
  if isPre pat hay then true
  else
    match hay with
    | [] => false
    | _ :: t => containsL t pat

def strContains (hay pat : String) : Bool := containsL hay.data pat.data

/-- Python `str.lstrip()` (whitespace). -/
def lstripL (cs : List Char) : List Char := cs.dropWhile isWsChar

/-- Python `str.rstrip()` (whitespace). -/
def rstripL (cs : List Char) : List Char := (cs.reverse.dropWhile isWsChar).reverse

/-- Python `str.strip()` (whitespace). -/
def stripL (cs : List Char) : List Char := rstripL (lstripL cs)

def pyStrip (s : String) : String := ⟨stripL s.data⟩

/-- Code-point comparison of strings, as used by Python `sorted` /
lexicographic `<=` on `str`. -/
def listLe : List Char → List Char → Bool
  | [], _ => true
  | _ :: _, [] => false
  | a :: as, b :: bs =>
    if a.val < b.val then true
    else if b.val < a.val then false
    else listLe as bs

def strLe (a b : String) : Bool := listLe a.data b.data

def insSorted (x : String) : List String → List String
  | [] => [x]
  | y :: ys => if strLe x y then x :: y :: ys else y :: insSorted x ys

/-- Python `sorted` on a collection of strings (insertion sort; the relative
order of equal strings is irrelevant because they are identical). -/
def sortStr (l : List String) : List String := l.foldr insSorted []

/-- Set-style insertion used to model Python `set.add` followed by a final
`sorted(...)`: keeps the collection duplicate-free. -/
def addSet (l : List String) (x : String) : List String :=
  if x ∈ l then l else l ++ [x]

/-- Python `str.replace(pat, rep)` for a non-empty literal `pat`:
left-to-right, non-overlapping, single pass.  `fuel` bounds the number of
steps; callers pass the length of the subject string. -/
def replaceGo (pat rep : List Char) : Nat → List Char → List Char
  | 0, s => s
  | fuel + 1, s =>
    if isPre pat s && !pat.isEmpty then
      rep ++ replaceGo pat rep fuel (s.drop pat.length)
    else
      match s with
      | [] => []
      | c :: t => c :: replaceGo pat rep fuel t

def replaceAllL (s pat rep : List Char) : List Char := replaceGo pat rep s.length s

def strReplace (s pat rep : String) : String := ⟨replaceAllL s.data pat.data rep.data⟩

/-- Regex `\s+` → `" "` (as in `re.sub(r"\s+", " ", s)`): every maximal
whitespace run collapses to a single space.  The boolean flag records
whether the previous character was whitespace. -/
def collapseGo : Bool → List Char → List Char
  | _, [] => []
  | prevWs, c :: t =>
    if isWsChar c then
      if prevWs then collapseGo true t else ' ' :: collapseGo true t
    else c :: collapseGo false t

def collapseWsL (cs : List Char) : List Char := collapseGo false cs

/-- Split a string at the first occurrence of a (non-empty) literal,
returning the pieces before and after it — Python `s.split(pat, 1)` when
the pattern occurs. -/
def splitOnceL (pat : List Char) : List Char → Option (List Char × List Char)
  | [] => if pat.isEmpty then some ([], []) else none
  | c :: t =>
    if isPre pat (c :: t) then some ([], (c :: t).drop pat.length)
    else match splitOnceL pat t with
      | some (l, r) => some (c :: l, r)
      | none => none

/-! ## Python runtime values

`Val` models the JSON-like values flowing through the service: `None`,
booleans, integers, strings, lists and string-keyed dicts.  (Float literals
in the *input* do not occur in the EMR payloads the service documents;
numeric lab values arrive as strings and are parsed to rationals.)
The list and dict spines are their own inductives so that recursion over
nested values is structural. -/

mutual
inductive Val where
  | null
  | bool (b : Bool)
  | int (n : Int)
  | str (s : String)
  | list (xs : ValList)
  | dict (kvs : ValDict)

inductive ValList where
  | nil
  | cons (hd : Val) (tl : ValList)

inductive ValDict where
  | nil
  | cons (k : String) (v : Val) (tl : ValDict)
end

def ValList.toList : ValList → List Val
  | .nil => []
  | .cons v tl => v :: tl.toList

def ValDict.toList : ValDict → List (String × Val)
  | .nil => []
  | .cons k v tl => (k, v) :: tl.toList

/-- Python truthiness. -/
def truthy : Val → Bool
  | .null => false
  | .bool b => b
  | .int n => n ≠ 0
  | .str s => s ≠ ""
  | .list .nil => false
  | .list _ => true
  | .dict .nil => false
  | .dict _ => true

def Val.isStr : Val → Bool
  | .str _ => true
  | _ => false

def Val.isDict : Val → Bool
  | .dict _ => true
  | _ => false

/-- First binding of a key in a dict spine (keys are unique in Python
dicts, so taking the first binding is faithful). -/
def ValDict.lookup : ValDict → String → Option Val
  | .nil, _ => none
  | .cons k v tl, key => if k = key then some v else tl.lookup key

def ValDict.hasKey (kvs : ValDict) (key : String) : Bool :=
  (kvs.lookup key).isSome

/-- Python `d.get(key)` (default `None`), raising `AttributeError` when the
receiver is not a dict. -/
def pyGet (v : Val) (key : String) : Except String Val :=
  match v with
  | .dict kvs => .ok ((kvs.lookup key).getD .null)
  | _ => .error "AttributeError: get"

/-- Python `d.get(key, default)`, raising `AttributeError` when the
receiver is not a dict. -/
def pyGetD (v : Val) (key : String) (d : Val) : Except String Val :=
  match v with
  | .dict kvs => .ok ((kvs.lookup key).getD d)
  | _ => .error "AttributeError: get"

/-- Python `for x in v`: lists yield their items, strings their characters
(as one-character strings), dicts their keys; other values raise
`TypeError`. -/
def pyIter (v : Val) : Except String (List Val) :=
  match v with
  | .list xs => .ok xs.toList
  | .str s => .ok (s.data.map fun c => .str (String.singleton c))
  | .dict kvs => .ok (kvs.toList.map fun kv => .str kv.1)
  | _ => .error "TypeError: not iterable"

/-- An apostrophe character, used by `pyRepr` below. -/
def sq : String := String.singleton (Char.ofNat 39)

mutual
/-- Python `repr`.  (String escaping inside containers is approximated by
plain quoting; no verified claim depends on the repr of nested
containers.) -/
def pyRepr : Val → String
  | .null => "None"
  | .bool true => "True"
  | .bool false => "False"
  | .int n => toString n
  | .str s => sq ++ s ++ sq
  | .list xs => "[" ++ pyReprList xs ++ "]"
  | .dict kvs => "\x7b" ++ pyReprDict kvs ++ "\x7d"

def pyReprList : ValList → String
  | .nil => ""
  | .cons v .nil => pyRepr v
  | .cons v tl => pyRepr v ++ ", " ++ pyReprList tl

def pyReprDict : ValDict → String
  | .nil => ""
  | .cons k v .nil => sq ++ k ++ sq ++ ": " ++ pyRepr v
  | .cons k v tl => sq ++ k ++ sq ++ ": " ++ pyRepr v ++ ", " ++ pyReprDict tl
end

/-- Python `str(v)` as used in f-string interpolation. -/
def pyStr : Val → String
  | .str s => s
  | v => pyRepr v

/-- Python `v in ("", None)` as used by the value filters (equality against
the empty string and `None`; values of other types compare unequal). -/
def isEmptyOrNone : Val → Bool
  | .null => true
  | .str s => s = ""
  | _ => false

/-! ## `emr_filter.py` — audit structure and value filter -/

/-- The audit structure built in `build_llm_payload`:
`{"discarded": [], "warnings": []}`. -/
structure Audit where
  discarded : List String
  warnings : List String
  deriving DecidableEq

def Audit.addDiscard (a : Audit) (s : String) : Audit :=
  { a with discarded := a.discarded ++ [s] }

def Audit.addWarn (a : Audit) (s : String) : Audit :=
  { a with warnings := a.warnings ++ [s] }

/-- `_valid_value`: a value is invalid if it is `""` or `None`, or a string
equal to `"normal"` after trim and lowercase. -/
def valid_value (value : Val) : Bool :=
  if isEmptyOrNone value then false
  else
    match value with
    | .str s => !(lowerStr (pyStrip s) = "normal")
    | _ => true

/-! ## `emr_filter.py` — `_extract_data` -/

/-- The `for item in value` inner loop of `_extract_data` (list-valued
field). -/
def extractItems (label key : String) : List Val → List String → Audit →
    List String × Audit
  | [], fs, a => (fs, a)
  | item :: rest, fs, a =>
    if valid_value item then
      extractItems label key rest (addSet fs (label ++ ": " ++ pyStr item)) a
    else
      extractItems label key rest fs
        (a.addDiscard (label ++ "." ++ key ++ ": ignored list item " ++ pyRepr item))

/-- The `for key, value in data.items()` loop of `_extract_data`. -/
def extractDataGo (label : String) : List (String × Val) → List String → Audit →
    List String × Audit
  | [], fs, a => (fs, a)
  | (k, v) :: rest, fs, a =>
    if lowerStr k = "comments" then
      extractDataGo label rest fs (a.addDiscard (label ++ "." ++ k ++ ": ignored (comments)"))
    else
      match v with
      | .list items =>
        let (fs, a) := extractItems label k items.toList fs a
        extractDataGo label rest fs a
      | _ =>
        if valid_value v then
          let keyLabel := pyStrip (strReplace k "_" " ")
          extractDataGo label rest (addSet fs (label ++ " " ++ keyLabel ++ ": " ++ pyStr v)) a
        else
          extractDataGo label rest fs
            (a.addDiscard (label ++ "." ++ k ++ ": ignored value " ++ pyRepr v))

/-- `_extract_data`.  The `label` argument is the stringification of the
label object (the source interpolates the label into f-strings; callers
here pre-apply `pyStr`, which is the same composition).  The `audit=None`
default of the source (which creates a throwaway audit) is not needed:
every call inside the pipeline passes an audit. -/
def extract_data (fs : List String) (data : Val) (label : String) (a : Audit) :
    List String × Audit :=
  match data with
  | .dict kvs => extractDataGo label kvs.toList fs a
  | _ => (fs, a.addDiscard (label ++ ": data not a dict"))

/-! ## `emr_filter.py` — section label normalization

The regex substitutions of `strip_laterality` are modelled directly:
each `re.sub` scans left to right, replacing non-overlapping matches in a
single pass, exactly as CPython does. -/

/-- One attempt to match `(?i)\b(right|left)\b` at the head of `s`, where
`prev` is the character just before the current position (`none` at the
start of the string).  Returns the length of the match. -/
def tryWordLat (prev : Option Char) (s : List Char) : Option Nat :=
  let boundaryBefore :=
    match prev with
    | none => true
    | some c => !isWordChar c
  if !boundaryBefore then none
  else
    let low := lowerL s
    if isPre "right".data low then
      match s.drop 5 with
      | [] => some 5
      | c :: _ => if isWordChar c then none else some 5
    else if isPre "left".data low then
      match s.drop 4 with
      | [] => some 4
      | c :: _ => if isWordChar c then none else some 4
    else none

/-- `re.sub(r"(?i)\b(right|left)\b", "", text)`: the fuel is an upper bound
on the number of scanning steps (one per character). -/
def subWordLatGo : Nat → Option Char → List Char → List Char
  | 0, _, s => s
  | fuel + 1, prev, s =>
    match tryWordLat prev s with
    | some n =>
      -- the scan resumes after the match; the last matched character
      -- (always a word character) supplies the next boundary context
      subWordLatGo fuel (some 't') (s.drop n)
    | none =>
      match s with
      | [] => []
      | c :: t => c :: subWordLatGo fuel (some c) t

def subWordLat (s : List Char) : List Char := subWordLatGo s.length none s

/-- One attempt to match `(?i)(r/od|l/os|r/|l/|r-|l-)` at the head of `s`
(alternatives tried left to right, as the regex engine does). -/
def tryAbbrev (s : List Char) : Option Nat :=
  let low := lowerL s
  if isPre "r/od".data low then some 4
  else if isPre "l/os".data low then some 4
  else if isPre "r/".data low then some 2
  else if isPre "l/".data low then some 2
  else if isPre "r-".data low then some 2
  else if isPre "l-".data low then some 2
  else none

/-- `re.sub(r"(?i)(r/od|l/os|r/|l/|r-|l-)", "", cleaned)`. -/
def subAbbrevGo : Nat → List Char → List Char
  | 0, s => s
  | fuel + 1, s =>
    match tryAbbrev s with
    | some n => subAbbrevGo fuel (s.drop n)
    | none =>
      match s with
      | [] => []
      | c :: t => c :: subAbbrevGo fuel t

def subAbbrev (s : List Char) : List Char := subAbbrevGo s.length s

/-- Characters of the class `[\s\-_/]`. -/
def isSepChar (c : Char) : Bool :=
  isWsChar c || c = '-' || c = '_' || c = '/'

/-- `re.sub(r"[\s\-_/]+", " ", cleaned)`: every maximal run of separator
characters becomes a single space. -/
def subSepsGo : Bool → List Char → List Char
  | _, [] => []
  | prevSep, c :: t =>
    if isSepChar c then
      if prevSep then subSepsGo true t else ' ' :: subSepsGo true t
    else c :: subSepsGo false t

def subSeps (s : List Char) : List Char := subSepsGo false s

/-- `re.sub(r"\(\s*\)", "", cleaned)`: removes `(` + whitespace + `)`
groups in a single left-to-right pass (so nested `(())` leaves an outer
`()` behind — the sub does not iterate to a fixpoint). -/
def subEmptyParenGo : Nat → List Char → List Char
  | 0, s => s
  | fuel + 1, s =>
    match s with
    | [] => []
    | c :: t =>
      if c = '(' then
        let ws := t.takeWhile isWsChar
        match t.drop ws.length with
        | ')' :: r2 => subEmptyParenGo fuel r2
        | _ => c :: subEmptyParenGo fuel t
      else c :: subEmptyParenGo fuel t

def subEmptyParen (s : List Char) : List Char := subEmptyParenGo s.length s

/-- `strip_laterality` on an actual string. -/
def strip_laterality_str (text : String) : String :=
  let cleaned := subWordLat text.data
  let cleaned := subAbbrev cleaned
  let cleaned := subSeps cleaned
  let cleaned := subEmptyParen cleaned
  ⟨stripL (collapseWsL cleaned)⟩

/-- `strip_laterality` (non-strings yield `""`). -/
def strip_laterality (text : Val) : String :=
  match text with
  | .str s => strip_laterality_str s
  | _ => ""

/-- The laterality trigger tokens of the `Right` branch of
`normalize_section_label`. -/
def rightTokens : List String := ["right", "r/od", "r/", "r-"]

/-- The laterality trigger tokens of the `Left` branch. -/
def leftTokens : List String := ["left", "l/os", "l/", "l-"]

/-- `normalize_section_label` on an actual string. -/
def normalize_section_label_str (section_name : String) : String :=
  let s := lowerStr section_name
  if rightTokens.any (fun k => strContains s k) then
    pyStrip ("Right " ++ strip_laterality_str section_name)
  else if leftTokens.any (fun k => strContains s k) then
    pyStrip ("Left " ++ strip_laterality_str section_name)
  else pyStrip section_name

/-- `normalize_section_label` (non-strings yield `"General"`). -/
def normalize_section_label (section_name : Val) : String :=
  match section_name with
  | .str s => normalize_section_label_str s
  | _ => "General"

/-! ## `emr_filter.py` — investigation filtering -/

/-- Is the value a string equal to `"normal"` after trim and lowercase? -/
def isNormalStr (v : Val) : Bool :=
  match v with
  | .str s => lowerStr (pyStrip s) = "normal"
  | _ => false

/-- The `for lab in investigation` loop of
`extract_investigation_findings`. -/
def invFindingsGo : List Val → List String → Audit → List String × Audit
  | [], fs, a => (fs, a)
  | lab :: rest, fs, a =>
    match lab with
    | .dict kvs =>
      let name := (kvs.lookup "name").getD .null
      let value := (kvs.lookup "value").getD .null
      if !truthy name then
        invFindingsGo rest fs
          (a.addDiscard ("investigation: skipped lab with missing name " ++ pyStr lab))
      else if isEmptyOrNone value then
        invFindingsGo rest fs
          (a.addDiscard ("investigation: skipped " ++ pyStr name ++ " with empty value"))
      else if isNormalStr value then
        invFindingsGo rest fs
          (a.addDiscard ("investigation: skipped " ++ pyStr name ++ "=='normal'"))
      else
        let unit := (kvs.lookup "unit").getD (.str "")
        let r1 := (kvs.lookup "reference").getD .null
        let refv := if truthy r1 then r1 else (kvs.lookup "reference_range").getD .null
        let entry := pyStr name ++ ": " ++ pyStr value
        let entry := if truthy unit then entry ++ " " ++ pyStr unit else entry
        let entry := if truthy refv then entry ++ " (ref " ++ pyStr refv ++ ")" else entry
        invFindingsGo rest (fs ++ [entry]) a
    | _ =>
      invFindingsGo rest fs
        (a.addDiscard ("investigation: skipped non-dict entry " ++ pyRepr lab))

/-- `extract_investigation_findings` (total: every input shape is
guarded). -/
def extract_investigation_findings (investigation : Val) (a : Audit) :
    List String × Audit :=
  match investigation with
  | .list xs => invFindingsGo xs.toList [] a
  | _ => ([], a.addDiscard "investigation: not a list")

/-- A parsed lab record as built by `parse_investigations`:
`{"name", "raw_value", "numeric_value", "unit", "reference"}`.  The
`name`, `unit` and `reference` fields hold the raw values from the lab
dict; `raw_value` is always a string (`str(value).strip()`); the parsed
float is modelled as a rational. -/
structure PLab where
  name : Val
  raw_value : String
  numeric_value : Option Rat
  unit : Val
  reference : Val

/-- Numeric value of a digit run. -/
def digitsVal (ds : List Char) : Nat :=
  ds.foldl (fun acc c => acc * 10 + (c.val.toNat - 48)) 0

/-- The rational denoted by `[sign] ipart [. fpart]`. -/
def ratOfParts (neg : Bool) (ipart fpart : List Char) : Rat :=
  let base : Int := (digitsVal ipart : Int) * ((10 : Int) ^ fpart.length) + (digitsVal fpart : Int)
  mkRat (if neg then -base else base) (10 ^ fpart.length)

/-- Attempt to match `[-+]?[0-9]*\.?[0-9]+` at the head of `cs`
(with the regex engine's greedy/backtracking semantics: a maximal digit
run, extended by `.`+digits when they follow). -/
def parseNumAt (cs : List Char) : Option Rat :=
  let signRest : Bool × List Char :=
    match cs with
    | '-' :: t => (true, t)
    | '+' :: t => (false, t)
    | _ => (false, cs)
  let neg := signRest.1
  let rest := signRest.2
  let d1 := rest.takeWhile Char.isDigit
  let rest2 := rest.drop d1.length
  if d1.isEmpty then
    match rest2 with
    | '.' :: r3 =>
      let d2 := r3.takeWhile Char.isDigit
      if d2.isEmpty then none else some (ratOfParts neg [] d2)
    | _ => none
  else
    match rest2 with
    | '.' :: r3 =>
      let d2 := r3.takeWhile Char.isDigit
      if d2.isEmpty then some (ratOfParts neg d1 []) else some (ratOfParts neg d1 d2)
    | _ => some (ratOfParts neg d1 [])

/-- `re.search(r"[-+]?[0-9]*\.?[0-9]+", raw)` followed by `float(...)`:
the leftmost match, scanned position by position. -/
def parseNumberL : List Char → Option Rat
  | [] => none
  | c :: t =>
    match parseNumAt (c :: t) with
    | some q => some q
    | none => parseNumberL t

/-- The `for lab in investigation` loop of `parse_investigations`.
The source wraps the regex search in `try/except`, but `float` cannot fail
on a string the regex matched, so the `warnings` branch is unreachable and
is not modelled. -/
def parseInvGo : List Val → List PLab → Audit → List PLab × Audit
  | [], ps, a => (ps, a)
  | lab :: rest, ps, a =>
    match lab with
    | .dict kvs =>
      let name := (kvs.lookup "name").getD .null
      let value := (kvs.lookup "value").getD .null
      let unit := (kvs.lookup "unit").getD .null
      let r1 := (kvs.lookup "reference").getD .null
      let refv := if truthy r1 then r1 else (kvs.lookup "reference_range").getD .null
      if !truthy name || isEmptyOrNone value then
        parseInvGo rest ps (a.addDiscard ("parse_investigations: skipped " ++ pyStr lab))
      else
        let raw := pyStrip (pyStr value)
        let numeric := parseNumberL raw.data
        parseInvGo rest (ps ++ [⟨name, raw, numeric, unit, refv⟩]) a
    | _ =>
      parseInvGo rest ps
        (a.addDiscard ("parse_investigations: skipped non-dict " ++ pyRepr lab))

/-- `parse_investigations` (total). -/
def parse_investigations (investigation : Val) (a : Audit) : List PLab × Audit :=
  match investigation with
  | .list xs => parseInvGo xs.toList [] a
  | _ => ([], a.addWarn "parse_investigations: investigation is not a list")

/-! ## `emr_filter.py` — safety scan -/

def FORBIDDEN_TERMS : List String :=
  ["prescribe", "diagnose", "start insulin", "start metformin",
   "you should", "do surgery", "operate"]

mutual
/-- The recursive `_scan` of `check_forbidden_terms`: strings are matched
against the vocabulary, lists are scanned item-wise, and dicts are scanned
over their *values* only (`obj.values()`) — dictionary keys are never
scanned.  Other values are ignored. -/
def scanTerms : Val → List String
  | .str s => FORBIDDEN_TERMS.filter (fun t => strContains (lowerStr s) t)
  | .list xs => scanTermsList xs
  | .dict kvs => scanTermsDict kvs
  | _ => []

def scanTermsList : ValList → List String
  | .nil => []
  | .cons v tl => scanTerms v ++ scanTermsList tl

def scanTermsDict : ValDict → List String
  | .nil => []
  | .cons _ v tl => scanTerms v ++ scanTermsDict tl
end

structure Safety where
  forbidden_terms : List String
  deriving DecidableEq

/-- `check_forbidden_terms`: the `found` set, returned sorted. -/
def check_forbidden_terms (context : Val) : Safety :=
  ⟨sortStr ((scanTerms context).foldl addSet [])⟩

/-! ## `emr_filter.py` — risk derivation -/

/-- `(lab.get("name") or "").lower()`: a falsy name yields `""`; a truthy
non-string name raises `AttributeError` at `.lower()`. -/
def labNameStr (name : Val) : Except String String :=
  if truthy name then
    match name with
    | .str s => .ok (lowerStr s)
    | _ => .error "AttributeError: lower"
  else .ok ""

/-- `raw = (lab.get("raw_value") or "").lower()` followed by
`any(d in raw for d in ("8", "9"))`. -/
def rawHas89 (lab : PLab) : Bool :=
  let raw := lowerStr lab.raw_value
  strContains raw "8" || strContains raw "9"

/-- The `for lab in parsed_labs` loop of `derive_clinical_risks`.  Note
the `else` arm: the raw-text fallback fires both when `numeric_value` is
absent *and* when it is present but below 8.0. -/
def deriveLabsGo : List PLab → List String → Except String (List String)
  | [], risks => .ok risks
  | lab :: rest, risks => do
    let name ← labNameStr lab.name
    let risks :=
      if strContains name "hba1c" then
        match lab.numeric_value with
        | some q =>
          if (8 : Rat) ≤ q then addSet risks "poor glycemic control"
          else if rawHas89 lab then addSet risks "poor glycemic control"
          else risks
        | none =>
          if rawHas89 lab then addSet risks "poor glycemic control" else risks
      else risks
    deriveLabsGo rest risks

/-- The initial risk set derived from the history and examination rules
(the two `if any(...)` statements preceding the lab loop of
`derive_clinical_risks`). -/
def baseRisks (history exam : List String) : List String :=
  let risks : List String := []
  let risks :=
    if history.any (fun h => strContains (lowerStr h) "diabetes") then
      addSet risks "long-standing diabetes"
    else risks
  if exam.any (fun e => strContains (lowerStr e) "phthisis") then
    addSet risks "single seeing eye"
  else risks

/-- `derive_clinical_risks`: the two any-match rules, then the lab loop,
then `sorted(risks)`. -/
def derive_clinical_risks (history exam : List String) (parsed_labs : List PLab) :
    Except String (List String) :=
  (deriveLabsGo parsed_labs (baseRisks history exam)).map sortStr

/-! ## `emr_filter.py` — prioritization and entry point -/

structure ClinicalContext where
  high_priority : List String
  medium_priority : List String
  low_priority : List String
  deriving DecidableEq

/-- `prioritize_context`. -/
def prioritize_context (history exam labs risks : List String) : ClinicalContext :=
  ⟨exam ++ risks, labs, history⟩

/-- The `for form in ...` loops of `_process_templates`
(`form.get("data")` raises on a non-dict form). -/
def processForms (label : String) : List Val → List String → Audit →
    Except String (List String × Audit)
  | [], fs, a => .ok (fs, a)
  | form :: rest, fs, a => do
    let dataVal ← pyGet form "data"
    let (fs, a) := extract_data fs dataVal label a
    processForms label rest fs a

/-- Label resolution: the examination path passes
`normalize_section_label`, the history path passes no resolver and the
label object is stringified by the f-strings of `_extract_data`. -/
def resolveLabel (resolver : Option (Val → String)) (labelVal : Val) : String :=
  match resolver with
  | some f => f labelVal
  | none => pyStr labelVal

/-- The `for section in ...` loop of `_process_templates`
(`section.get(...)` raises on a non-dict section; Python's `or` would
short-circuit the second lookup, but on a dict receiver both lookups are
pure, so evaluating both is equivalent). -/
def processSections (defaultLabel : String) (resolver : Option (Val → String)) :
    List Val → List String → Audit → Except String (List String × Audit)
  | [], fs, a => .ok (fs, a)
  | sec :: rest, fs, a => do
    let n1 ← pyGet sec "section_name"
    let n2 ← pyGet sec "sectionname"
    let labelVal := if truthy n1 then n1 else if truthy n2 then n2 else .str defaultLabel
    let label := resolveLabel resolver labelVal
    let formsVal ← pyGetD sec "forms" (.list .nil)
    let forms ← pyIter formsVal
    let (fs, a) ← processForms label forms fs a
    processSections defaultLabel resolver rest fs a

/-- The `for template in templates` loop of `_process_templates`. -/
def processTemplateList (defaultLabel : String) (resolver : Option (Val → String)) :
    List Val → List String → Audit → Except String (List String × Audit)
  | [], fs, a => .ok (fs, a)
  | template :: rest, fs, a =>
    match template with
    | .dict kvs =>
      if kvs.hasKey "sections" then do
        let sections ← pyIter ((kvs.lookup "sections").getD (.list .nil))
        let (fs, a) ← processSections defaultLabel resolver sections fs a
        processTemplateList defaultLabel resolver rest fs a
      else if kvs.hasKey "forms" then do
        let forms ← pyIter ((kvs.lookup "forms").getD (.list .nil))
        let (fs, a) ← processForms defaultLabel forms fs a
        processTemplateList defaultLabel resolver rest fs a
      else if kvs.hasKey "data" then
        let (fs, a) := extract_data fs ((kvs.lookup "data").getD .null) defaultLabel a
        processTemplateList defaultLabel resolver rest fs a
      else
        processTemplateList defaultLabel resolver rest fs a
    | _ => processTemplateList defaultLabel resolver rest fs a

/-- `_process_templates` (a non-list container returns silently). -/
def process_templates (templates : Val) (defaultLabel : String)
    (resolver : Option (Val → String)) (fs : List String) (a : Audit) :
    Except String (List String × Audit) :=
  match templates with
  | .list ts => processTemplateList defaultLabel resolver ts.toList fs a
  | _ => .ok (fs, a)

/-- `extract_history_findings`: `history.get("templates", [])` raises
when `history` is not a dict. -/
def extract_history_findings (history : Val) (a : Audit) :
    Except String (List String × Audit) :=
  match history with
  | .dict kvs =>
    let templates := (kvs.lookup "templates").getD (.list .nil)
    (process_templates templates "History" none [] a).map
      fun fa => (sortStr fa.1, fa.2)
  | _ => .error "AttributeError: get"

/-- `extract_examination_findings`: the
`templates or templetes or []` fallback chain (`.get` raises when
`examination` is not a dict; on a dict both lookups are pure, and
Python's short-circuiting `or` is the nested conditional below). -/
def extract_examination_findings (examination : Val) (a : Audit) :
    Except String (List String × Audit) :=
  match examination with
  | .dict kvs =>
    let t1 := (kvs.lookup "templates").getD .null
    let t2 := (kvs.lookup "templetes").getD .null
    let templates := if truthy t1 then t1 else if truthy t2 then t2 else .list .nil
    (process_templates templates "Examination" (some normalize_section_label) [] a).map
      fun fa => (sortStr fa.1, fa.2)
  | _ => .error "AttributeError: get"

structure Meta where
  generated_at : String
  version : String
  risk_flags : List String
  audit : Audit
  safety : Safety
  parsed_labs : List PLab

structure Payload where
  clinical_context : ClinicalContext
  meta : Meta

/-- `datetime.utcnow().isoformat()` is an environmental input (wall-clock
time); it is modelled as a fixed placeholder string.  No claim concerns
the timestamp. -/
def GENERATED_AT : String := "1970-01-01T00:00:00"

/-- `build_llm_payload`, the pipeline entry point.  `context.get` raises
`AttributeError` when the context is not a dict, and the extractors raise
on non-dict history/examination — the `Except` layer records exactly the
places where the source can raise. -/
def build_llm_payload (context : Val) : Except String Payload := do
  let history ← pyGetD context "history" (.dict .nil)
  let examination ← pyGetD context "examination" (.dict .nil)
  let investigation ← pyGetD context "investigation" (.list .nil)
  let audit : Audit := ⟨[], []⟩
  let safety := check_forbidden_terms context
  let (history_findings, audit) ← extract_history_findings history audit
  let (exam_findings, audit) ← extract_examination_findings examination audit
  let (lab_findings, audit) := extract_investigation_findings investigation audit
  let (parsed_labs, audit) := parse_investigations investigation audit
  let risk_flags ← derive_clinical_risks history_findings exam_findings parsed_labs
  let prioritized := prioritize_context history_findings exam_findings lab_findings risk_flags
  return ⟨prioritized, ⟨GENERATED_AT, "1.0.0", risk_flags, audit, safety, parsed_labs⟩⟩

/-! ## `report_generator.py`

`generate_report` consumes the output of `build_llm_payload`; it is
modelled over the typed `Payload` (the source's defensive
`payload.get(..., {}) or []` chains are identities on that shape). -/

def strStartsWith (s p : String) : Bool := isPre p.data s.data

/-- `RISK_TO_ACTIONS`. -/
def RISK_TO_ACTIONS (r : String) : Option (List String) :=
  if r = "single seeing eye" then
    some ["Urgent ophthalmology review", "Warn about vision preservation"]
  else if r = "long-standing diabetes" then
    some ["Detailed retinal examination", "Optimize blood glucose control"]
  else if r = "poor glycemic control" then
    some ["Optimize blood glucose control", "Consider HbA1c recheck & diabetes clinic referral"]
  else none

/-- `_shorten` with the default `max_len = 140`: trim, and truncate to 139
characters plus an ellipsis when longer than 140. -/
def shorten (text : String) : String :=
  let t := pyStrip text
  if t.length ≤ 140 then t
  else (⟨rstripL (t.data.take 139)⟩ : String) ++ "…"

/-- `_normalize_text`. -/
def normalize_text (s : String) : String :=
  let s := pyStrip s
  let s := strReplace s "()" ""
  let s : String := ⟨collapseWsL s.data⟩
  pyStrip s

/-- Python `str.capitalize()` (ASCII fragment): first character
uppercased, the rest lowercased. -/
def capitalizePy (s : String) : String :=
  match s.data with
  | [] => ""
  | c :: t => ⟨Char.toUpper c :: lowerL t⟩

/-- `re.match(r"(?i)\b(left|right)\b.*eye", left)`: anchored at the start;
the leading `\b` holds exactly when the first character is a word
character (which `l`/`r` are); `.*` cannot cross a newline, so `eye` must
occur in the remainder before any newline.  Returns the capitalized
laterality group. -/
def matchEyeLat (s : String) : Option String :=
  let cs := s.data
  let low := lowerL cs
  let after : Nat → Bool := fun n =>
    (match cs.drop n with
     | [] => true
     | c :: _ => !isWordChar c) &&
    containsL (lowerL ((cs.drop n).takeWhile (fun c => c ≠ '\n'))) "eye".data
  if isPre "left".data low && after 4 then some "Left"
  else if isPre "right".data low && after 5 then some "Right"
  else none

/-- `_humanize_finding`.  The non-string guard of the source is vacuous
here: the caller interpolates `str(raw)` and the findings are strings. -/
def humanize_finding (finding : String) : String :=
  if finding = "" then ""
  else
    let finding := normalize_text finding
    let lr : String × String :=
      match splitOnceL ": ".data finding.data with
      | some (l, r) => (pyStrip ⟨l⟩, pyStrip ⟨r⟩)
      | none => (pyStrip finding, "")
    let left := lr.1
    let right := lr.2
    let fallback := if right ≠ "" then left ++ ": " ++ right else left
    match matchEyeLat left with
    | some lat =>
      if right ≠ "" then lat ++ " eye: " ++ right else lat ++ " eye: " ++ left
    | none =>
      let ll := lowerStr left
      if strStartsWith ll "hba1c" || strStartsWith ll "hb" ||
          strStartsWith ll "creatinine" || strStartsWith ll "cholesterol" ||
          strStartsWith ll "fasting glucose" then
        let r := strReplace right " %" "%"
        -- the second replace of the source (`" % (" → "% ("`) is a no-op
        -- after the first one; kept for fidelity
        let r := strReplace r " % (" "% ("
        left ++ ": " ++ r
      else if strStartsWith ll "general" then
        let content := pyStrip ⟨left.data.drop 7⟩
        if content ≠ "" then capitalizePy content ++ ": " ++ right
        else fallback
      else fallback

/-- `_normalize_key_for_dedup`: lowercase, drop everything but `a`-`z` and
whitespace, collapse whitespace, trim. -/
def normalize_key_for_dedup (s : String) : String :=
  let s := lowerStr s
  let s : String := ⟨s.data.filter (fun c => ('a' ≤ c && c ≤ 'z') || isWsChar c)⟩
  pyStrip ⟨collapseWsL s.data⟩

/-- The humanize-and-deduplicate loop over the ordered findings
(`seen_keys` is modelled as a duplicate-free list).  Note the key is
computed from `h` *before* `_shorten` truncates it. -/
def insightsLoop : List String → List String → List String → List String × List String
  | [], ins, seen => (ins, seen)
  | raw :: rest, ins, seen =>
    let h := humanize_finding raw
    let key := normalize_key_for_dedup h
    if h = "" || key ∈ seen then insightsLoop rest ins seen
    else
      let ins := ins ++ [shorten h]
      let seen := seen ++ [key]
      if 6 ≤ ins.length then (ins, seen) else insightsLoop rest ins seen

/-- The fixed risk-flag message table (unmapped flags pass through). -/
def riskMsg (r : String) : String :=
  if r = "poor glycemic control" then
    "Poor glycemic control noted; consider tighter glucose control."
  else if r = "long-standing diabetes" then
    "Long-standing diabetes noted; check for chronic complications."
  else if r = "single seeing eye" then
    "Single-seeing eye detected; prioritize protecting vision."
  else r

/-- The risk-message loop appended after the insights. -/
def risksLoop : List String → List String → List String → List String × List String
  | [], ins, seen => (ins, seen)
  | r :: rest, ins, seen =>
    let msg := riskMsg r
    let key := normalize_key_for_dedup msg
    if key ∈ seen then risksLoop rest ins seen
    else risksLoop rest (ins ++ [msg]) (seen ++ [key])

/-- Decimal rendering of a parsed numeric value, standing in for Python's
`str(float)`.  Parsed values always have a power-of-ten denominator, for
which this agrees with the shortest decimal form (integers render with a
trailing `.0` as in Python); the summary string is the only consumer. -/
def ratPyStr (q : Rat) : String :=
  let sign := if q.num < 0 then "-" else ""
  let n := q.num.natAbs
  if q.den = 1 then sign ++ toString n ++ ".0"
  else
    match (List.range 31).find? (fun k => 10 ^ k % q.den = 0) with
    | some k =>
      let scaled := n * (10 ^ k / q.den)
      let digits := toString scaled
      let digits := if digits.length ≤ k then
          (⟨List.replicate (k + 1 - digits.length) '0'⟩ : String) ++ digits
        else digits
      let cut := digits.length - k
      sign ++ (⟨digits.data.take cut⟩ : String) ++ "." ++ (⟨digits.data.drop cut⟩ : String)
    | none => sign ++ toString n ++ "/" ++ toString q.den

/-- The summary's HbA1c lookup: first parsed lab whose lowered name starts
with `"hba1c"`; its value is `numeric_value or raw_value` (a falsy numeric
falls back to the raw text).  Raises on a truthy non-string name, exactly
as `(lab.get("name") or "").lower()` does. -/
def findHbA1c : List PLab → Except String (Option String)
  | [] => .ok none
  | lab :: rest => do
    let n ← labNameStr lab.name
    if strStartsWith n "hba1c" then
      .ok (some (match lab.numeric_value with
        | some q => if q ≠ 0 then ratPyStr q else lab.raw_value
        | none => lab.raw_value))
    else findHbA1c rest

structure AiOutput where
  summary : String
  key_insights : List String
  clinical_risks : List String
  suggested_next_steps : List String
  confidence_level : String
  safety_warnings : Option (List String)

structure Report where
  status : String
  case_id : Option String
  patient_id : Option String
  ai_output : AiOutput
  audit : Option Audit

/-- `generate_report`. -/
def generate_report (payload : Payload) : Except String Report := do
  let ctx := payload.clinical_context
  let risks := payload.meta.risk_flags
  let high := ctx.high_priority
  let medium := ctx.medium_priority
  let low := ctx.low_priority
  let ordered_findings := high ++ medium ++ low
  let insSeen := insightsLoop ordered_findings [] []
  let insights := (risksLoop risks insSeen.1 insSeen.2).1
  let parsed := payload.meta.parsed_labs
  let hba1c ← findHbA1c parsed
  let summary :=
    match insights with
    | top :: _ =>
      if risks ≠ [] then
        let risk_text := String.intercalate ", " risks
        match hba1c with
        | some h =>
          shorten (top ++ ". Key risks include " ++ risk_text ++ "; HbA1c " ++ h ++ " %.")
        | none => shorten (top ++ ". Key risks include " ++ risk_text ++ ".")
      else shorten top
    | [] =>
      if risks ≠ [] then shorten ("Key risks: " ++ String.intercalate ", " risks) else ""
  let clinical_risks := risks
  let suggested := risks.flatMap (fun r => (RISK_TO_ACTIONS r).getD ["Clinical review"])
  let suggested_unique := suggested.foldl addSet []
  let steps := if suggested_unique = [] then ["Clinical review"] else suggested_unique
  let confidence := if risks ≠ [] then "medium" else "low"
  let safety_warnings :=
    if payload.meta.safety.forbidden_terms ≠ [] then
      some (payload.meta.safety.forbidden_terms.map
        (fun t => "Forbidden term detected: " ++ t))
    else none
  -- the audit of a pipeline payload is always present, so the source's
  -- `if audit is not None` guard always fires
  return ⟨"success", none, none,
    ⟨summary, insights, clinical_risks, steps, confidence, safety_warnings⟩,
    some payload.meta.audit⟩

/-! ## Small helpers for stating and evaluating claims -/

/-- The successful result of a fallible computation, with a default. -/
def exOk {α : Type} (e : Except String α) (d : α) : α :=
  match e with
  | .ok x => x
  | .error _ => d

/-- Did the computation return without raising? -/
def exIsOk {α : Type} (e : Except String α) : Bool :=
  match e with
  | .ok _ => true
  | .error _ => false

/-- Build a `Val` dict from a key-value list. -/
def dl (l : List (String × Val)) : Val :=
  .dict (l.foldr (fun kv acc => ValDict.cons kv.1 kv.2 acc) .nil)

/-- Build a `Val` list from a value list. -/
def vl (l : List Val) : Val :=
  .list (l.foldr ValList.cons .nil)

/-- A string of `n` copies of `a`. -/
def aStr (n : Nat) : String := ⟨List.replicate n 'a'⟩

/-- `high_priority ++ medium_priority ++ low_priority`, the candidate
insight pool of `generate_report`. -/
def ordered_findings (p : Payload) : List String :=
  p.clinical_context.high_priority ++ p.clinical_context.medium_priority ++
    p.clinical_context.low_priority

/-- Placeholder report used as the default of `exOk`. -/
def dummyReport : Report := ⟨"", none, none, ⟨"", [], [], [], "", none⟩, none⟩

/-- Placeholder payload used as the default of `exOk`. -/
def dummyPayload : Payload :=
  ⟨⟨[], [], []⟩, ⟨GENERATED_AT, "1.0.0", [], ⟨[], []⟩, ⟨[]⟩, []⟩⟩

/-! ## Basic lemmas about the set/sort helpers -/

theorem mem_insSorted {x a : String} {l : List String} :
    a ∈ insSorted x l ↔ a = x ∨ a ∈ l := by
  induction l with
  | nil => simp [insSorted]
  | cons y ys ih =>
    by_cases h : strLe x y = true
    · simp [insSorted, h]
    · simp only [insSorted, h]
      simp only [Bool.false_eq_true, if_false, List.mem_cons, ih]
      tauto

theorem mem_sortStr {a : String} {l : List String} :
    a ∈ sortStr l ↔ a ∈ l := by
  induction l with
  | nil => simp [sortStr]
  | cons x xs ih =>
    show a ∈ insSorted x (sortStr xs) ↔ _
    rw [mem_insSorted, ih]
    simp

theorem mem_addSet {l : List String} {x a : String} :
    a ∈ addSet l x ↔ a ∈ l ∨ a = x := by
  by_cases h : x ∈ l
  · simp only [addSet, h, if_true]
    constructor
    · exact Or.inl
    · rintro (ha | rfl) <;> assumption
  · simp [addSet, h]

theorem subset_addSet (l : List String) (x : String) : l ⊆ addSet l x := by
  intro a ha
  exact mem_addSet.mpr (Or.inl ha)

theorem self_mem_addSet (l : List String) (x : String) : x ∈ addSet l x :=
  mem_addSet.mpr (Or.inr rfl)

/-! ## Claim C9 — non-string section labels normalize to "General" -/

/-- C9: for every non-string input value, `normalize_section_label`
returns the fixed string `"General"`. -/
theorem claim_C9 (v : Val) (h : v.isStr = false) :
    normalize_section_label v = "General" := by
  cases v <;> simp_all [Val.isStr, normalize_section_label]

/-- Witness for C9 at the concrete non-string input `None`. -/
theorem claim_C9_witness :
    Val.null.isStr = false ∧ normalize_section_label .null = "General" :=
  ⟨by decide, claim_C9 .null (by decide)⟩

/-! ## Claim C3 — guarantees of `normalize_section_label`

The "never contains `()`" and "never contains the laterality word twice"
guarantees fail: `re.sub(r"\(\s*\)", "", ...)` makes a single pass, so
nested `"((right))"` normalizes to `"Right ()"`; and the abbreviation sub
can *create* the word `"right"` (`"rr-ight"` → `"right"`), so
`"rr-ight rr-ight"` normalizes to `"Right right right"`.  The
no-laterality-token branch does return the trimmed original. -/

/-- C3 counterexample: `normalize_section_label "((right))" = "Right ()"`
contains the literal `"()"`, and
`normalize_section_label "rr-ight rr-ight" = "Right right right"`
contains the word `"right"` twice (even the substring `"right right"`). -/
theorem claim_C3_counterexample :
    normalize_section_label (.str "((right))") = "Right ()" ∧
    strContains (normalize_section_label (.str "((right))")) "()" = true ∧
    normalize_section_label (.str "rr-ight rr-ight") = "Right right right" ∧
    strContains (lowerStr (normalize_section_label (.str "rr-ight rr-ight")))
      "right right" = true := by
  refine ⟨by decide, by decide, by decide, by decide⟩

/-- C3 as amended: when no laterality token (`right`, `r/od`, `r/`, `r-`,
`left`, `l/os`, `l/`, `l-`) occurs in the lowercased input, the trimmed
original string is returned unchanged.  (The non-duplication and no-`"()"`
guarantees do not hold in general, per the counterexample.) -/
theorem claim_C3 (s : String)
    (h : ((rightTokens ++ leftTokens).all fun k => !strContains (lowerStr s) k) = true) :
    normalize_section_label (.str s) = pyStrip s := by
  simp only [rightTokens, leftTokens, List.cons_append, List.nil_append, List.all_cons,
    List.all_nil, Bool.and_eq_true, Bool.not_eq_true'] at h
  obtain ⟨h1, h2, h3, h4, h5, h6, h7, h8, -⟩ := h
  show normalize_section_label_str s = pyStrip s
  unfold normalize_section_label_str
  simp [rightTokens, leftTokens, h1, h2, h3, h4, h5, h6, h7, h8]

/-- Witness for C3 at the concrete laterality-free label `"Fundus"`. -/
theorem claim_C3_witness :
    (((rightTokens ++ leftTokens).all
        fun k => !strContains (lowerStr "Fundus") k) = true) ∧
    normalize_section_label (.str "Fundus") = pyStrip "Fundus" :=
  ⟨by decide, claim_C3 "Fundus" (by decide)⟩

/-! ## Claim C6 — forbidden-term scan

The scan walks dict *values* (`obj.values()`), so a forbidden phrase that
occurs only inside a dictionary *key* is missed; for strings in value
positions the claim holds. -/

/-- The string `s` occurs somewhere in `v` at a *value* position: as the
value itself, as a (possibly nested) list item, or as a (possibly nested)
dict value. -/
inductive OccursVal : String → Val → Prop where
  | here (s : String) : OccursVal s (.str s)
  | inList {s : String} {v : Val} {xs : ValList}
      (hv : v ∈ xs.toList) (h : OccursVal s v) : OccursVal s (.list xs)
  | inDict {s : String} {k : String} {v : Val} {kvs : ValDict}
      (hv : (k, v) ∈ kvs.toList) (h : OccursVal s v) : OccursVal s (.dict kvs)

theorem scanTermsList_subset {v : Val} :
    {xs : ValList} → v ∈ xs.toList → scanTerms v ⊆ scanTermsList xs
  | .cons hd tl, hv => by
    simp only [ValList.toList, List.mem_cons] at hv
    rcases hv with rfl | hv
    · intro t htv
      exact List.mem_append.mpr (Or.inl htv)
    · intro t htv
      exact List.mem_append.mpr (Or.inr (scanTermsList_subset hv htv))

theorem scanTermsDict_subset {k : String} {v : Val} :
    {kvs : ValDict} → (k, v) ∈ kvs.toList → scanTerms v ⊆ scanTermsDict kvs
  | .cons k0 v0 tl, hv => by
    simp only [ValDict.toList, List.mem_cons, Prod.mk.injEq] at hv
    rcases hv with ⟨-, rfl⟩ | hv
    · intro t htv
      exact List.mem_append.mpr (Or.inl htv)
    · intro t htv
      exact List.mem_append.mpr (Or.inr (scanTermsDict_subset hv htv))

theorem mem_foldl_addSet {l : List String} {acc : List String} {x : String}
    (hx : x ∈ acc ∨ x ∈ l) : x ∈ l.foldl addSet acc := by
  induction l generalizing acc with
  | nil => simpa using hx
  | cons y t ih =>
    show x ∈ t.foldl addSet (addSet acc y)
    rcases hx with hx | hx
    · exact ih (Or.inl (subset_addSet acc y hx))
    · rcases List.mem_cons.mp hx with rfl | hx
      · exact ih (Or.inl (self_mem_addSet acc x))
      · exact ih (Or.inr hx)

/-- C6 as amended: a forbidden phrase occurring (case-insensitively) in a
string anywhere in the input at a *value* position — the value itself,
nested list items, nested dict values, but not dictionary keys — is
reported in the sorted `forbidden_terms` list. -/
theorem claim_C6 (ctx : Val) (s t : String) (ht : t ∈ FORBIDDEN_TERMS)
    (hocc : OccursVal s ctx) (hsub : strContains (lowerStr s) t = true) :
    t ∈ (check_forbidden_terms ctx).forbidden_terms := by
  have hscan : t ∈ scanTerms ctx := by
    induction hocc with
    | here =>
      simp only [scanTerms, List.mem_filter]
      exact ⟨ht, hsub⟩
    | inList hv _ ih => exact scanTermsList_subset hv ih
    | inDict hv _ ih => exact scanTermsDict_subset hv ih
  show t ∈ sortStr _
  exact mem_sortStr.mpr (mem_foldl_addSet (Or.inr hscan))

/-- C6 counterexample: the free text `"please start insulin now"` placed
as a dictionary *key* has `"start insulin"` as a substring, yet
`check_forbidden_terms` reports nothing — keys are never scanned. -/
theorem claim_C6_counterexample :
    strContains (lowerStr "please start insulin now") "start insulin" = true ∧
    "start insulin" ∈ FORBIDDEN_TERMS ∧
    (check_forbidden_terms
      (.dict (.cons "please start insulin now" .null .nil))).forbidden_terms = [] := by
  refine ⟨by decide, by decide, by decide⟩

/-- Witness for C6: `"Please start insulin now"` as a dict *value* yields
`"start insulin"`. -/
theorem claim_C6_witness :
    "start insulin" ∈
      (check_forbidden_terms
        (.dict (.cons "notes" (.str "Please start insulin now") .nil))).forbidden_terms :=
  claim_C6 (.dict (.cons "notes" (.str "Please start insulin now") .nil))
    "Please start insulin now" "start insulin" (by decide)
    (OccursVal.inDict (List.Mem.head _) (OccursVal.here _)) (by decide)

/-! ## Claim C8 — the misspelled `"templetes"` fallback -/

/-- C8: on an examination dict whose `"templates"` entry is absent or
falsy, `extract_examination_findings` behaves exactly as if the value of
the misspelled key `"templetes"` had been supplied under `"templates"`. -/
theorem claim_C8 (kvs : ValDict) (a : Audit)
    (h : truthy ((kvs.lookup "templates").getD .null) = false) :
    extract_examination_findings (.dict kvs) a =
      extract_examination_findings
        (.dict (.cons "templates" ((kvs.lookup "templetes").getD .null) .nil)) a := by
  unfold extract_examination_findings
  simp only [ValDict.lookup, if_pos rfl, h, Bool.false_eq_true, if_false]
  cases htx : truthy ((kvs.lookup "templetes").getD .null) <;>
    simp [htx, show truthy Val.null = false from rfl]

/-- An examination dict carrying only the misspelled `"templetes"` key,
with one direct-data template. -/
def examKvs : ValDict :=
  .cons "templetes" (vl [dl [("data", dl [("tone", .str "raised")])]]) .nil

/-- Witness for C8 at `examKvs` (its `"templates"` entry is absent, hence
falsy). -/
theorem claim_C8_witness :
    truthy ((examKvs.lookup "templates").getD .null) = false ∧
    extract_examination_findings (.dict examKvs) ⟨[], []⟩ =
      extract_examination_findings
        (.dict (.cons "templates" ((examKvs.lookup "templetes").getD .null) .nil))
        ⟨[], []⟩ :=
  ⟨by decide, claim_C8 examKvs ⟨[], []⟩ (by decide)⟩

/-! ## Claim C10 — fixed report envelope -/

/-- C10: every report that `generate_report` returns has
`status = "success"` and null `case_id` and `patient_id`, regardless of
the payload's contents. -/
theorem claim_C10 (payload : Payload) (r : Report)
    (h : generate_report payload = .ok r) :
    r.status = "success" ∧ r.case_id = none ∧ r.patient_id = none := by
  cases hF : findHbA1c payload.meta.parsed_labs with
  | error e =>
    simp only [generate_report, Bind.bind, Except.bind, hF] at h
    cases h
  | ok v =>
    simp only [generate_report, Bind.bind, Except.bind, hF, pure, Except.pure,
      Except.ok.injEq] at h
    subst h
    exact ⟨rfl, rfl, rfl⟩

/-- Witness for C10 at an empty payload. -/
theorem claim_C10_witness :
    (exOk (generate_report dummyPayload) dummyReport).status = "success" ∧
    (exOk (generate_report dummyPayload) dummyReport).case_id = none ∧
    (exOk (generate_report dummyPayload) dummyReport).patient_id = none :=
  claim_C10 dummyPayload (exOk (generate_report dummyPayload) dummyReport) rfl

/-! ## Claims C2 and C7 — HbA1c risk derivation

The `else` arm of the HbA1c rule fires whenever the numeric value is *not*
`≥ 8.0` — including when a numeric value is present but below 8.0 — and
then falls back to the raw-text digit check.  So a lab with
`numeric_value = 6.8` and raw text `"6.8"` *does* flag
`"poor glycemic control"`, contradicting C2 as stated. -/

/-- The exact condition under which a parsed lab contributes
`"poor glycemic control"`: its lowered name resolves (a falsy name gives
`""`) and contains `"hba1c"`, and either the numeric value is `≥ 8.0`, or
it is absent or below 8.0 and the raw text contains the digit `8` or `9`. -/
def poorGlycemicCond (lab : PLab) : Prop :=
  ∃ n, labNameStr lab.name = .ok n ∧ strContains n "hba1c" = true ∧
    ((∃ q, lab.numeric_value = some q ∧ (8 : Rat) ≤ q) ∨
     ((lab.numeric_value = none ∨ ∃ q, lab.numeric_value = some q ∧ q < 8) ∧
       rawHas89 lab = true))

theorem mem_baseRisks {history exam : List String} {x : String}
    (h : x ∈ baseRisks history exam) :
    x = "long-standing diabetes" ∨ x = "single seeing eye" := by
  unfold baseRisks at h
  by_cases h1 : history.any (fun h => strContains (lowerStr h) "diabetes") = true <;>
    by_cases h2 : exam.any (fun e => strContains (lowerStr e) "phthisis") = true <;>
      simp [h1, h2, mem_addSet] at h <;> tauto

/-- Membership in the output of the lab loop, characterized exactly. -/
theorem deriveLabsGo_ok_mem (labs : List PLab) (r out : List String)
    (h : deriveLabsGo labs r = .ok out) (x : String) :
    x ∈ out ↔ x ∈ r ∨ (x = "poor glycemic control" ∧ ∃ lab ∈ labs, poorGlycemicCond lab) := by
  induction labs generalizing r with
  | nil =>
    simp only [deriveLabsGo, Except.ok.injEq] at h
    subst h
    simp
  | cons lab rest ih =>
    cases hn : labNameStr lab.name with
    | error e =>
      simp only [deriveLabsGo, Bind.bind, Except.bind, hn] at h
      cases h
    | ok n =>
      simp only [deriveLabsGo, Bind.bind, Except.bind, hn] at h
      rw [ih _ h]
      have hcond : ∀ r' : List String,
          x ∈ (if strContains n "hba1c" = true then
              match lab.numeric_value with
              | some q =>
                if (8 : Rat) ≤ q then addSet r' "poor glycemic control"
                else if rawHas89 lab then addSet r' "poor glycemic control"
                else r'
              | none =>
                if rawHas89 lab then addSet r' "poor glycemic control" else r'
            else r') ↔
            x ∈ r' ∨ (x = "poor glycemic control" ∧ poorGlycemicCond lab) := by
        intro r'
        by_cases hc : strContains n "hba1c" = true
        · cases hq : lab.numeric_value with
          | some q =>
            by_cases h8 : (8 : Rat) ≤ q
            · simp only [hc, if_true, hq, h8, mem_addSet]
              constructor
              · rintro (hx | rfl)
                · exact Or.inl hx
                · exact Or.inr ⟨rfl, n, hn, hc, Or.inl ⟨q, hq, h8⟩⟩
              · rintro (hx | ⟨rfl, -⟩)
                · exact Or.inl hx
                · exact Or.inr rfl
            · by_cases hraw : rawHas89 lab = true
              · simp only [hc, if_true, hq, h8, if_false, hraw, mem_addSet]
                constructor
                · rintro (hx | rfl)
                  · exact Or.inl hx
                  · exact Or.inr ⟨rfl, n, hn, hc,
                      Or.inr ⟨Or.inr ⟨q, hq, lt_of_not_le h8⟩, hraw⟩⟩
                · rintro (hx | ⟨rfl, -⟩)
                  · exact Or.inl hx
                  · exact Or.inr rfl
              · simp only [hc, if_true, hq, h8, hraw, Bool.false_eq_true, if_false]
                constructor
                · exact Or.inl
                · rintro (hx | ⟨rfl, n', hn', hc', hdisj⟩)
                  · exact hx
                  · rw [hn] at hn'
                    cases hn'
                    rcases hdisj with ⟨q', hq', h8'⟩ | ⟨-, hraw'⟩
                    · rw [hq] at hq'
                      cases hq'
                      exact absurd h8' h8
                    · exact absurd hraw' hraw
          | none =>
            by_cases hraw : rawHas89 lab = true
            · simp only [hc, if_true, hq, hraw, mem_addSet]
              constructor
              · rintro (hx | rfl)
                · exact Or.inl hx
                · exact Or.inr ⟨rfl, n, hn, hc, Or.inr ⟨Or.inl hq, hraw⟩⟩
              · rintro (hx | ⟨rfl, -⟩)
                · exact Or.inl hx
                · exact Or.inr rfl
            · simp only [hc, if_true, hq, hraw, Bool.false_eq_true, if_false]
              constructor
              · exact Or.inl
              · rintro (hx | ⟨rfl, n', hn', hc', hdisj⟩)
                · exact hx
                · rw [hn] at hn'
                  cases hn'
                  rcases hdisj with ⟨q', hq', -⟩ | ⟨-, hraw'⟩
                  · rw [hq] at hq'
                    cases hq'
                  · exact absurd hraw' hraw
        · simp only [hc, Bool.false_eq_true, if_false]
          constructor
          · exact Or.inl
          · rintro (hx | ⟨rfl, n', hn', hc', -⟩)
            · exact hx
            · rw [hn] at hn'
              cases hn'
              exact absurd hc' hc
      rw [hcond r]
      simp only [List.mem_cons]
      constructor
      · rintro ((hx | ⟨rfl, hc⟩) | ⟨rfl, lab', hl', hc'⟩)
        · exact Or.inl hx
        · exact Or.inr ⟨rfl, lab, Or.inl rfl, hc⟩
        · exact Or.inr ⟨rfl, lab', Or.inr hl', hc'⟩
      · rintro (hx | ⟨rfl, lab', (rfl | hl'), hc'⟩)
        · exact Or.inl (Or.inl hx)
        · exact Or.inl (Or.inr ⟨rfl, hc'⟩)
        · exact Or.inr ⟨rfl, lab', hl', hc'⟩

/-- C2 counterexample: the parsed lab `HbA1c = 6.8` has a present numeric
value strictly below 8.0, yet it *does* produce the flag (the raw text
`"6.8"` contains the digit `8`). -/
theorem claim_C2_counterexample :
    (mkRat 68 10 < (8 : Rat)) ∧
    derive_clinical_risks [] []
        [⟨.str "HbA1c", "6.8", some (mkRat 68 10), .null, .null⟩] =
      .ok ["poor glycemic control"] :=
  ⟨by decide, rfl⟩

/-- C2 as amended: when `derive_clinical_risks` returns, it flags
`"poor glycemic control"` exactly when some parsed lab has a (lowered)
name containing `"hba1c"` and either a numeric value `≥ 8.0`, or a
numeric value that is absent *or below 8.0* together with a raw text
containing the digit `8` or `9`. -/
theorem claim_C2 (history exam : List String) (labs : List PLab) (rs : List String)
    (h : derive_clinical_risks history exam labs = .ok rs) :
    "poor glycemic control" ∈ rs ↔ ∃ lab ∈ labs, poorGlycemicCond lab := by
  unfold derive_clinical_risks at h
  cases hgo : deriveLabsGo labs (baseRisks history exam) with
  | error e =>
    rw [hgo] at h
    cases h
  | ok out =>
    rw [hgo] at h
    simp only [Except.map, Except.ok.injEq] at h
    subst h
    rw [mem_sortStr, deriveLabsGo_ok_mem labs _ out hgo]
    constructor
    · rintro (hbase | ⟨-, hlab⟩)
      · rcases mem_baseRisks hbase with hb | hb <;> exact absurd hb (by decide)
      · exact hlab
    · intro hlab
      exact Or.inr ⟨rfl, hlab⟩

/-- Witness for C2 at the concrete 6.8 lab: the flag is present and the
characterizing condition is witnessed by that lab. -/
theorem claim_C2_witness :
    "poor glycemic control" ∈ ["poor glycemic control"] ↔
      ∃ lab ∈ [(⟨.str "HbA1c", "6.8", some (mkRat 68 10), .null, .null⟩ : PLab)],
        poorGlycemicCond lab :=
  claim_C2 [] [] [⟨.str "HbA1c", "6.8", some (mkRat 68 10), .null, .null⟩]
    ["poor glycemic control"] rfl

/-- Appending one lab to the loop's input only grows the risk set. -/
theorem deriveLabsGo_append (l1 l2 : List PLab) (r : List String) :
    deriveLabsGo (l1 ++ l2) r = (deriveLabsGo l1 r).bind (deriveLabsGo l2) := by
  induction l1 generalizing r with
  | nil => simp [deriveLabsGo, Except.bind]
  | cons lab rest ih =>
    cases hn : labNameStr lab.name with
    | error e =>
      simp [deriveLabsGo, Bind.bind, Except.bind, hn]
    | ok n =>
      simp only [List.cons_append, deriveLabsGo, Bind.bind, Except.bind, hn]
      exact ih _

/-- C7: appending an HbA1c lab with a present numeric value `≥ 8.0` to any
input on which `derive_clinical_risks` succeeds keeps it succeeding, adds
`"poor glycemic control"`, and removes no previously-present flag. -/
theorem claim_C7 (history exam : List String) (labs : List PLab) (hl : PLab)
    (s : String) (q : Rat) (hname : hl.name = .str s)
    (hs : strContains (lowerStr s) "hba1c" = true)
    (hnum : hl.numeric_value = some q) (h8 : (8 : Rat) ≤ q)
    (rs : List String) (h : derive_clinical_risks history exam labs = .ok rs) :
    exIsOk (derive_clinical_risks history exam (labs ++ [hl])) = true ∧
    "poor glycemic control" ∈ exOk (derive_clinical_risks history exam (labs ++ [hl])) [] ∧
    rs ⊆ exOk (derive_clinical_risks history exam (labs ++ [hl])) [] := by
  have hs' : s ≠ "" := by
    rintro rfl
    exact absurd hs (by decide)
  have hn : labNameStr hl.name = .ok (lowerStr s) := by
    simp [labNameStr, hname, truthy, hs']
  unfold derive_clinical_risks at h ⊢
  cases hgo : deriveLabsGo labs (baseRisks history exam) with
  | error e =>
    rw [hgo] at h
    cases h
  | ok out =>
    rw [hgo] at h
    simp only [Except.map, Except.ok.injEq] at h
    subst h
    have hone : deriveLabsGo [hl] out = .ok (addSet out "poor glycemic control") := by
      simp [deriveLabsGo, Bind.bind, Except.bind, hn, hs, hnum, h8]
    have happ : deriveLabsGo (labs ++ [hl]) (baseRisks history exam) =
        .ok (addSet out "poor glycemic control") := by
      rw [deriveLabsGo_append, hgo]
      simpa [Except.bind] using hone
    rw [happ]
    refine ⟨rfl, ?_, ?_⟩
    · exact mem_sortStr.mpr (self_mem_addSet _ _)
    · intro y hy
      exact mem_sortStr.mpr (subset_addSet _ _ (mem_sortStr.mp hy))

/-- The HbA1c ≥ 8 lab appended in the C7 witness. -/
def hlWitness : PLab := ⟨.str "HbA1c", "9", some 9, .null, .null⟩

/-- Witness for C7: starting from a history that already flags
`"long-standing diabetes"` and no labs, appending the 9.0 HbA1c lab keeps
the call succeeding, adds the flag, and keeps the old one. -/
theorem claim_C7_witness :
    exIsOk (derive_clinical_risks ["Type 2 Diabetes Mellitus"] [] ([] ++ [hlWitness])) = true ∧
    "poor glycemic control" ∈
      exOk (derive_clinical_risks ["Type 2 Diabetes Mellitus"] [] ([] ++ [hlWitness])) [] ∧
    ["long-standing diabetes"] ⊆
      exOk (derive_clinical_risks ["Type 2 Diabetes Mellitus"] [] ([] ++ [hlWitness])) [] :=
  claim_C7 ["Type 2 Diabetes Mellitus"] [] [] hlWitness "HbA1c" 9 rfl (by decide)
    rfl (by decide) ["long-standing diabetes"] rfl

/-! ## Claim C5 — deduplication of `key_insights`

The dedup key of an insight is computed from the humanized finding
*before* `_shorten` truncates it, so truncation can make two distinct keys
collide in the output.  Under the proviso that truncation does not change
any entry's key, the output keys are pairwise distinct. -/

theorem insightsLoop_invariant (raws : List String) (ins seen : List String)
    (hh : ∀ raw ∈ raws,
      normalize_key_for_dedup (shorten (humanize_finding raw)) =
        normalize_key_for_dedup (humanize_finding raw))
    (hnd : (ins.map normalize_key_for_dedup).Nodup)
    (hsub : ∀ i ∈ ins, normalize_key_for_dedup i ∈ seen) :
    ((insightsLoop raws ins seen).1.map normalize_key_for_dedup).Nodup ∧
    ∀ i ∈ (insightsLoop raws ins seen).1,
      normalize_key_for_dedup i ∈ (insightsLoop raws ins seen).2 := by
  induction raws generalizing ins seen with
  | nil => exact ⟨hnd, hsub⟩
  | cons raw rest ih =>
    by_cases hskip :
        humanize_finding raw = "" ∨
          normalize_key_for_dedup (humanize_finding raw) ∈ seen
    · have : insightsLoop (raw :: rest) ins seen = insightsLoop rest ins seen := by
        rcases hskip with hsk | hsk <;> simp [insightsLoop, hsk]
      rw [this]
      exact ih ins seen (fun r hr => hh r (List.mem_cons_of_mem _ hr)) hnd hsub
    · push_neg at hskip
      obtain ⟨hne, hkey⟩ := hskip
      have hks : normalize_key_for_dedup (shorten (humanize_finding raw)) =
          normalize_key_for_dedup (humanize_finding raw) :=
        hh raw (List.mem_cons_self _ _)
      have hnd' : ((ins ++ [shorten (humanize_finding raw)]).map
          normalize_key_for_dedup).Nodup := by
        rw [List.map_append, List.map_singleton, hks]
        rw [List.nodup_append]
        refine ⟨hnd, List.nodup_singleton _, ?_⟩
        intro a ha hb
        simp only [List.mem_singleton] at hb
        subst hb
        rcases List.mem_map.mp ha with ⟨i, hi, hkeyi⟩
        exact hkey (hkeyi ▸ hsub i hi)
      have hsub' : ∀ i ∈ ins ++ [shorten (humanize_finding raw)],
          normalize_key_for_dedup i ∈
            seen ++ [normalize_key_for_dedup (humanize_finding raw)] := by
        intro i hi
        rcases List.mem_append.mp hi with hi | hi
        · exact List.mem_append.mpr (Or.inl (hsub i hi))
        · simp only [List.mem_singleton] at hi
          subst hi
          rw [hks]
          exact List.mem_append.mpr (Or.inr (List.mem_singleton.mpr rfl))
      have hrw : insightsLoop (raw :: rest) ins seen =
          (if 6 ≤ (ins ++ [shorten (humanize_finding raw)]).length then
            (ins ++ [shorten (humanize_finding raw)],
             seen ++ [normalize_key_for_dedup (humanize_finding raw)])
          else insightsLoop rest (ins ++ [shorten (humanize_finding raw)])
            (seen ++ [normalize_key_for_dedup (humanize_finding raw)])) := by
        simp [insightsLoop, hne, hkey]
      rw [hrw]
      by_cases hlen : 6 ≤ (ins ++ [shorten (humanize_finding raw)]).length
      · simp only [hlen, if_true]
        exact ⟨hnd', hsub'⟩
      · simp only [hlen, if_false]
        exact ih _ _ (fun r hr => hh r (List.mem_cons_of_mem _ hr)) hnd' hsub'

theorem risksLoop_invariant (rlist : List String) (ins seen : List String)
    (hnd : (ins.map normalize_key_for_dedup).Nodup)
    (hsub : ∀ i ∈ ins, normalize_key_for_dedup i ∈ seen) :
    ((risksLoop rlist ins seen).1.map normalize_key_for_dedup).Nodup ∧
    ∀ i ∈ (risksLoop rlist ins seen).1,
      normalize_key_for_dedup i ∈ (risksLoop rlist ins seen).2 := by
  induction rlist generalizing ins seen with
  | nil => exact ⟨hnd, hsub⟩
  | cons r rest ih =>
    by_cases hkey : normalize_key_for_dedup (riskMsg r) ∈ seen
    · have : risksLoop (r :: rest) ins seen = risksLoop rest ins seen := by
        simp [risksLoop, hkey]
      rw [this]
      exact ih ins seen hnd hsub
    · have hrw : risksLoop (r :: rest) ins seen =
          risksLoop rest (ins ++ [riskMsg r])
            (seen ++ [normalize_key_for_dedup (riskMsg r)]) := by
        simp [risksLoop, hkey]
      rw [hrw]
      refine ih _ _ ?_ ?_
      · rw [List.map_append, List.map_singleton, List.nodup_append]
        refine ⟨hnd, List.nodup_singleton _, ?_⟩
        intro a ha hb
        simp only [List.mem_singleton] at hb
        subst hb
        rcases List.mem_map.mp ha with ⟨i, hi, hkeyi⟩
        exact hkey (hkeyi ▸ hsub i hi)
      · intro i hi
        rcases List.mem_append.mp hi with hi | hi
        · exact List.mem_append.mpr (Or.inl (hsub i hi))
        · simp only [List.mem_singleton] at hi
          subst hi
          exact List.mem_append.mpr (Or.inr (List.mem_singleton.mpr rfl))

/-- C5 as amended: whenever the `_shorten` truncation step does not change
any humanized finding's dedup key (in particular whenever no humanized
finding exceeds 140 characters), the `key_insights` of the generated
report contain no two entries with an identical normalized dedup key. -/
theorem claim_C5 (payload : Payload)
    (hh : ∀ raw ∈ ordered_findings payload,
      normalize_key_for_dedup (shorten (humanize_finding raw)) =
        normalize_key_for_dedup (humanize_finding raw))
    (r : Report) (hr : generate_report payload = .ok r) :
    (r.ai_output.key_insights.map normalize_key_for_dedup).Nodup := by
  cases hF : findHbA1c payload.meta.parsed_labs with
  | error e =>
    simp only [generate_report, Bind.bind, Except.bind, hF] at hr
    cases hr
  | ok v =>
    simp only [generate_report, Bind.bind, Except.bind, hF, pure, Except.pure,
      Except.ok.injEq] at hr
    subst hr
    have hins := insightsLoop_invariant (ordered_findings payload) [] [] hh
      (by simp) (by simp)
    exact (risksLoop_invariant payload.meta.risk_flags _ _ hins.1 hins.2).1

/-- The payload exhibiting the truncation collision: a 141-character
finding (truncated to 139 chars + ellipsis) and the 139-character finding
equal to that truncation's prefix. -/
def cexPayload : Payload :=
  ⟨⟨[aStr 141, aStr 139], [], []⟩, ⟨GENERATED_AT, "1.0.0", [], ⟨[], []⟩, ⟨[]⟩, []⟩⟩

set_option maxRecDepth 8000 in
/-- C5 counterexample: on `cexPayload` the report generator succeeds and
returns two `key_insights` entries with the same dedup key (139 `a`s):
the keys of the two *raw* findings differ, so both pass the seen-set
check, but truncation makes the stored entries collide. -/
theorem claim_C5_counterexample :
    exIsOk (generate_report cexPayload) = true ∧
    ¬ ((exOk (generate_report cexPayload) dummyReport).ai_output.key_insights.map
        normalize_key_for_dedup).Nodup := by
  refine ⟨rfl, by decide⟩

/-- A small payload for the C5 witness: two short findings with distinct
keys and one risk flag. -/
def c5Payload : Payload :=
  ⟨⟨["Right Eye: Phthisis Bulbi", "single seeing eye"], ["HbA1c: 8.2 %"], []⟩,
   ⟨GENERATED_AT, "1.0.0", ["single seeing eye"], ⟨[], []⟩, ⟨[]⟩, []⟩⟩

/-- Witness for C5 at `c5Payload` (no finding is long enough to be
truncated, so the proviso holds by evaluation). -/
theorem claim_C5_witness :
    ((exOk (generate_report c5Payload) dummyReport).ai_output.key_insights.map
      normalize_key_for_dedup).Nodup :=
  claim_C5 c5Payload (by decide)
    (exOk (generate_report c5Payload) dummyReport) rfl

/-! ## Claim C4 — "normal" leakage

The value filter rejects only values *equal* to `"normal"` after trim and
lowercase; a value like `"abnormal"` passes and its finding contains the
case-insensitive substring `"normal"`.  What does hold: every finding
embeds, after a `": "` separator, a value that passed the validity
filter. -/

theorem str_append_empty : ∀ s : String, s ++ "" = s
  | ⟨l⟩ => congrArg String.mk (List.append_nil l)

theorem str_append_assoc : ∀ a b c : String, a ++ b ++ c = a ++ (b ++ c)
  | ⟨x⟩, ⟨y⟩, ⟨z⟩ => congrArg String.mk (List.append_assoc x y z)

/-- The string `f` has the shape `<prefix>: <value><suffix>` for a value
accepted by `_valid_value` (so in particular not textually "normal"). -/
def embedsValidValue (f : String) : Prop :=
  ∃ pre v suf, valid_value v = true ∧ f = pre ++ ": " ++ pyStr v ++ suf

theorem extractItems_good (label key : String) :
    ∀ (items : List Val) (fs : List String) (a : Audit) (f : String),
      f ∈ (extractItems label key items fs a).1 → f ∈ fs ∨ embedsValidValue f := by
  intro items
  induction items with
  | nil => intro fs a f hf; exact Or.inl hf
  | cons item rest ih =>
    intro fs a f hf
    by_cases hv : valid_value item = true
    · simp only [extractItems, hv, if_true] at hf
      rcases ih _ _ f hf with hmem | hemb
      · rcases mem_addSet.mp hmem with hmem | rfl
        · exact Or.inl hmem
        · refine Or.inr ⟨label, item, "", hv, ?_⟩
          rw [str_append_empty]
      · exact Or.inr hemb
    · simp only [extractItems, hv, Bool.false_eq_true, if_false] at hf
      exact ih _ _ f hf

theorem extractDataGo_good (label : String) :
    ∀ (kvs : List (String × Val)) (fs : List String) (a : Audit) (f : String),
      f ∈ (extractDataGo label kvs fs a).1 → f ∈ fs ∨ embedsValidValue f := by
  intro kvs
  induction kvs with
  | nil => intro fs a f hf; exact Or.inl hf
  | cons kv rest ih =>
    intro fs a f hf
    obtain ⟨k, v⟩ := kv
    simp only [extractDataGo] at hf
    split at hf
    · exact ih _ _ f hf
    · split at hf
      · rename_i items
        rcases ih _ _ f hf with hmem | hemb
        · exact extractItems_good label k items.toList fs a f hmem
        · exact Or.inr hemb
      · split at hf
        · rename_i hv
          rcases ih _ _ f hf with hmem | hemb
          · rcases mem_addSet.mp hmem with hmem | rfl
            · exact Or.inl hmem
            · refine Or.inr ⟨label ++ " " ++ pyStrip (strReplace k "_" " "), v, "", hv, ?_⟩
              rw [str_append_empty]
          · exact Or.inr hemb
        · exact ih _ _ f hf

theorem extract_data_good (fs : List String) (data : Val) (label : String) (a : Audit)
    (f : String) (hf : f ∈ (extract_data fs data label a).1) :
    f ∈ fs ∨ embedsValidValue f := by
  cases data with
  | dict kvs => exact extractDataGo_good label kvs.toList fs a f hf
  | null | bool _ | int _ | str _ | list _ => exact Or.inl hf

theorem processForms_good (label : String) :
    ∀ (forms : List Val) (fs : List String) (a : Audit) (res : List String × Audit),
      processForms label forms fs a = .ok res →
      ∀ f ∈ res.1, f ∈ fs ∨ embedsValidValue f := by
  intro forms
  induction forms with
  | nil =>
    intro fs a res h f hf
    simp only [processForms, Except.ok.injEq] at h
    subst h
    exact Or.inl hf
  | cons form rest ih =>
    intro fs a res h f hf
    cases hg : pyGet form "data" with
    | error e =>
      simp only [processForms, Bind.bind, Except.bind, hg] at h
      cases h
    | ok d =>
      simp only [processForms, Bind.bind, Except.bind, hg] at h
      rcases ih _ _ _ h f hf with hmem | hemb
      · exact extract_data_good fs d label a f hmem
      · exact Or.inr hemb

theorem processSections_good (defaultLabel : String) (resolver : Option (Val → String)) :
    ∀ (sections : List Val) (fs : List String) (a : Audit) (res : List String × Audit),
      processSections defaultLabel resolver sections fs a = .ok res →
      ∀ f ∈ res.1, f ∈ fs ∨ embedsValidValue f := by
  intro sections
  induction sections with
  | nil =>
    intro fs a res h f hf
    simp only [processSections, Except.ok.injEq] at h
    subst h
    exact Or.inl hf
  | cons sec rest ih =>
    intro fs a res h f hf
    cases h1 : pyGet sec "section_name" with
    | error e =>
      simp only [processSections, Bind.bind, Except.bind, h1] at h
      cases h
    | ok n1 =>
      cases h2 : pyGet sec "sectionname" with
      | error e =>
        simp only [processSections, Bind.bind, Except.bind, h1, h2] at h
        cases h
      | ok n2 =>
        cases h3 : pyGetD sec "forms" (.list .nil) with
        | error e =>
          simp only [processSections, Bind.bind, Except.bind, h1, h2, h3] at h
          cases h
        | ok formsVal =>
          cases h4 : pyIter formsVal with
          | error e =>
            simp only [processSections, Bind.bind, Except.bind, h1, h2, h3, h4] at h
            cases h
          | ok forms =>
            simp only [processSections, Bind.bind, Except.bind, h1, h2, h3, h4] at h
            cases h5 : processForms
                (resolveLabel resolver
                  (if truthy n1 = true then n1
                   else if truthy n2 = true then n2 else .str defaultLabel))
                forms fs a with
            | error e =>
              rw [h5] at h
              cases h
            | ok mid =>
              rw [h5] at h
              rcases ih _ _ _ h f hf with hmem | hemb
              · exact processForms_good _ forms fs a mid h5 f hmem
              · exact Or.inr hemb

theorem processTemplateList_good (defaultLabel : String) (resolver : Option (Val → String)) :
    ∀ (ts : List Val) (fs : List String) (a : Audit) (res : List String × Audit),
      processTemplateList defaultLabel resolver ts fs a = .ok res →
      ∀ f ∈ res.1, f ∈ fs ∨ embedsValidValue f := by
  intro ts
  induction ts with
  | nil =>
    intro fs a res h f hf
    simp only [processTemplateList, Except.ok.injEq] at h
    subst h
    exact Or.inl hf
  | cons template rest ih =>
    intro fs a res h f hf
    cases template with
    | dict kvs =>
      simp only [processTemplateList] at h
      split at h
      · cases h4 : pyIter ((kvs.lookup "sections").getD (.list .nil)) with
        | error e =>
          simp only [Bind.bind, Except.bind, h4] at h
          cases h
        | ok sections =>
          simp only [Bind.bind, Except.bind, h4] at h
          cases h5 : processSections defaultLabel resolver sections fs a with
          | error e =>
            rw [h5] at h
            cases h
          | ok mid =>
            rw [h5] at h
            rcases ih _ _ _ h f hf with hmem | hemb
            · exact processSections_good _ _ sections fs a mid h5 f hmem
            · exact Or.inr hemb
      · split at h
        · cases h4 : pyIter ((kvs.lookup "forms").getD (.list .nil)) with
          | error e =>
            simp only [Bind.bind, Except.bind, h4] at h
            cases h
          | ok forms =>
            simp only [Bind.bind, Except.bind, h4] at h
            cases h5 : processForms defaultLabel forms fs a with
            | error e =>
              rw [h5] at h
              cases h
            | ok mid =>
              rw [h5] at h
              rcases ih _ _ _ h f hf with hmem | hemb
              · exact processForms_good _ forms fs a mid h5 f hmem
              · exact Or.inr hemb
        · split at h
          · rcases ih _ _ _ h f hf with hmem | hemb
            · exact extract_data_good fs _ defaultLabel a f hmem
            · exact Or.inr hemb
          · exact ih _ _ _ h f hf
    | null | bool _ | int _ | str _ | list _ =>
      simp only [processTemplateList] at h
      exact ih _ _ _ h f hf

theorem process_templates_good (templates : Val) (defaultLabel : String)
    (resolver : Option (Val → String)) (fs : List String) (a : Audit)
    (res : List String × Audit) (h : process_templates templates defaultLabel resolver fs a = .ok res)
    (f : String) (hf : f ∈ res.1) : f ∈ fs ∨ embedsValidValue f := by
  cases templates with
  | list ts => exact processTemplateList_good defaultLabel resolver ts.toList fs a res h f hf
  | null | bool _ | int _ | str _ | dict _ =>
    simp only [process_templates, Except.ok.injEq] at h
    subst h
    exact Or.inl hf

theorem valid_value_eq (v : Val) :
    valid_value v = (!isEmptyOrNone v && !isNormalStr v) := by
  cases v with
  | str s => by_cases hs : s = "" <;> simp [valid_value, isEmptyOrNone, isNormalStr, hs]
  | null => rfl
  | bool b => rfl
  | int n => rfl
  | list xs => rfl
  | dict kvs => rfl

theorem invFindingsGo_good :
    ∀ (labs : List Val) (fs : List String) (a : Audit) (f : String),
      f ∈ (invFindingsGo labs fs a).1 → f ∈ fs ∨ embedsValidValue f := by
  intro labs
  induction labs with
  | nil => intro fs a f hf; exact Or.inl hf
  | cons lab rest ih =>
    intro fs a f hf
    cases lab with
    | dict kvs =>
      simp only [invFindingsGo] at hf
      split at hf
      · exact ih _ _ f hf
      · split at hf
        · exact ih _ _ f hf
        · split at hf
          · exact ih _ _ f hf
          · rename_i hname hempty hnormal
            rcases ih _ _ f hf with hmem | hemb
            · rcases List.mem_append.mp hmem with hmem | hmem
              · exact Or.inl hmem
              · simp only [List.mem_singleton] at hmem
                subst hmem
                have hv : valid_value ((kvs.lookup "value").getD .null) = true := by
                  rw [valid_value_eq]
                  simp only [Bool.not_eq_true] at hempty hnormal
                  simp [hempty, hnormal]
                by_cases hu : truthy ((kvs.lookup "unit").getD (.str "")) = true <;>
                  by_cases hr :
                    truthy
                      (if truthy ((kvs.lookup "reference").getD .null) = true then
                        (kvs.lookup "reference").getD .null
                      else (kvs.lookup "reference_range").getD .null) = true <;>
                  simp only [hu, hr, Bool.false_eq_true, if_true, if_false]
                · exact Or.inr ⟨pyStr ((kvs.lookup "name").getD .null),
                    (kvs.lookup "value").getD .null,
                    " " ++ pyStr ((kvs.lookup "unit").getD (.str "")) ++ " (ref " ++
                      pyStr
                        (if truthy ((kvs.lookup "reference").getD .null) = true then
                          (kvs.lookup "reference").getD .null
                        else (kvs.lookup "reference_range").getD .null) ++ ")",
                    hv, by simp [str_append_assoc]⟩
                · exact Or.inr ⟨pyStr ((kvs.lookup "name").getD .null),
                    (kvs.lookup "value").getD .null,
                    " " ++ pyStr ((kvs.lookup "unit").getD (.str "")),
                    hv, by simp [str_append_assoc]⟩
                · exact Or.inr ⟨pyStr ((kvs.lookup "name").getD .null),
                    (kvs.lookup "value").getD .null,
                    " (ref " ++
                      pyStr
                        (if truthy ((kvs.lookup "reference").getD .null) = true then
                          (kvs.lookup "reference").getD .null
                        else (kvs.lookup "reference_range").getD .null) ++ ")",
                    hv, by simp [str_append_assoc]⟩
                · exact Or.inr ⟨pyStr ((kvs.lookup "name").getD .null),
                    (kvs.lookup "value").getD .null, "",
                    hv, by simp [str_append_assoc, str_append_empty]⟩
            · exact Or.inr hemb
    | null | bool _ | int _ | str _ | list _ =>
      simp only [invFindingsGo] at hf
      exact ih _ _ f hf

/-- C4 as amended: every finding produced by the history, examination or
investigation extractors embeds (after a `": "` separator) a value that
passed the validity filter — i.e. a non-null, non-empty value that is not
equal to `"normal"` after trim and lowercase.  Findings can still contain
`"normal"` as a proper substring of longer text (see the
counterexample). -/
theorem claim_C4 :
    (∀ (history : Val) (a : Audit) (res : List String × Audit),
        extract_history_findings history a = .ok res →
        ∀ f ∈ res.1, embedsValidValue f) ∧
    (∀ (examination : Val) (a : Audit) (res : List String × Audit),
        extract_examination_findings examination a = .ok res →
        ∀ f ∈ res.1, embedsValidValue f) ∧
    (∀ (investigation : Val) (a : Audit) (f : String),
        f ∈ (extract_investigation_findings investigation a).1 → embedsValidValue f) := by
  refine ⟨?_, ?_, ?_⟩
  · intro history a res h f hf
    cases history with
    | dict kvs =>
      simp only [extract_history_findings] at h
      cases hp : process_templates ((kvs.lookup "templates").getD (.list .nil))
          "History" none [] a with
      | error e =>
        rw [hp] at h
        cases h
      | ok mid =>
        rw [hp] at h
        simp only [Except.map, Except.ok.injEq] at h
        subst h
        rcases process_templates_good _ _ _ _ _ _ hp f (mem_sortStr.mp hf) with hmem | hemb
        · exact absurd hmem (List.not_mem_nil f)
        · exact hemb
    | null | bool _ | int _ | str _ | list _ =>
      cases h
  · intro examination a res h f hf
    cases examination with
    | dict kvs =>
      simp only [extract_examination_findings] at h
      cases hp : process_templates
          (if truthy ((kvs.lookup "templates").getD .null) = true then
            (kvs.lookup "templates").getD .null
          else if truthy ((kvs.lookup "templetes").getD .null) = true then
            (kvs.lookup "templetes").getD .null
          else .list .nil)
          "Examination" (some normalize_section_label) [] a with
      | error e =>
        rw [hp] at h
        cases h
      | ok mid =>
        rw [hp] at h
        simp only [Except.map, Except.ok.injEq] at h
        subst h
        rcases process_templates_good _ _ _ _ _ _ hp f (mem_sortStr.mp hf) with hmem | hemb
        · exact absurd hmem (List.not_mem_nil f)
        · exact hemb
    | null | bool _ | int _ | str _ | list _ =>
      cases h
  · intro investigation a f hf
    cases investigation with
    | list xs =>
      rcases invFindingsGo_good xs.toList [] a f hf with hmem | hemb
      · exact absurd hmem (List.not_mem_nil f)
      · exact hemb
    | null | bool _ | int _ | str _ | dict _ =>
      simp only [extract_investigation_findings] at hf
      exact absurd hf (List.not_mem_nil f)

/-- C4 counterexample: the history value `"abnormal"` passes the filter
(it is not equal to `"normal"`), and the produced finding
`"History note: abnormal"` contains the case-insensitive substring
`"normal"`. -/
theorem claim_C4_counterexample :
    (exOk (extract_history_findings
        (dl [("templates", vl [dl [("data", dl [("note", .str "abnormal")])]])])
        ⟨[], []⟩) ([], ⟨[], []⟩)).1 = ["History note: abnormal"] ∧
    strContains (lowerStr "History note: abnormal") "normal" = true :=
  ⟨rfl, by decide⟩

/-- Witness for C4 applied to a concrete investigation list: the produced
finding embeds a valid value. -/
theorem claim_C4_witness :
    embedsValidValue "HbA1c: 8.2 %" :=
  claim_C4.2.2
    (vl [dl [("name", .str "HbA1c"), ("value", .str "8.2"), ("unit", .str "%")]])
    ⟨[], []⟩ "HbA1c: 8.2 %" (by decide)

/-! ## Claim C1 — totality of `build_llm_payload`

The pipeline is *not* total: `context.get` raises `AttributeError` on a
non-dict context, `history.get`/`examination.get` raise on non-dict
history/examination, the section/form walkers raise on non-dict sections
and forms, and `derive_clinical_risks` raises on a truthy non-string lab
name.  Under the well-shapedness conditions below — which all the shapes
documented by the spec satisfy, and which still admit arbitrary malformed
values everywhere else (non-list templates, non-dict template entries,
non-dict data, arbitrary investigation shapes with string-or-falsy
names) — the pipeline returns a structurally valid payload. -/

/-- A lab name over which `derive_clinical_risks` does not raise: a string
or a falsy value. -/
def nameValOk (n : Val) : Bool :=
  match n with
  | .str _ => true
  | v => !truthy v

/-- A `"forms"` value the walker can iterate safely: a list of dicts. -/
def formsValOk (v : Val) : Bool :=
  match v with
  | .list fs => fs.toList.all Val.isDict
  | _ => false

/-- A section the walker can process safely: a dict whose `"forms"` value
(defaulting to `[]`) is a list of dicts. -/
def sectionOk (s : Val) : Bool :=
  match s with
  | .dict kvs => formsValOk ((kvs.lookup "forms").getD (.list .nil))
  | _ => false

/-- A `"sections"` value the walker can iterate safely. -/
def sectionsValOk (v : Val) : Bool :=
  match v with
  | .list ss => ss.toList.all sectionOk
  | _ => false

/-- A template entry the walker can process safely (non-dict entries are
skipped, so they are always fine). -/
def templateOk (t : Val) : Bool :=
  match t with
  | .dict kvs =>
    if kvs.hasKey "sections" then sectionsValOk ((kvs.lookup "sections").getD (.list .nil))
    else if kvs.hasKey "forms" then formsValOk ((kvs.lookup "forms").getD (.list .nil))
    else true
  | _ => true

/-- A templates container the walker can process safely (non-lists return
silently, so they are always fine). -/
def templatesOk (v : Val) : Bool :=
  match v with
  | .list ts => ts.toList.all templateOk
  | _ => true

/-- An investigation entry whose name will not make the risk deriver
raise. -/
def labNameOk (lab : Val) : Bool :=
  match lab with
  | .dict kvs => nameValOk ((kvs.lookup "name").getD .null)
  | _ => true

def investigationOk (v : Val) : Bool :=
  match v with
  | .list labs => labs.toList.all labNameOk
  | _ => true

/-- The well-shapedness precondition of the amended C1: a dict context
whose history and examination entries are dicts (or absent), whose
selected template containers are safe for the walker, and whose
investigation lab names are strings or falsy. -/
def wellShaped (context : Val) : Bool :=
  match context with
  | .dict kvs =>
    (match (kvs.lookup "history").getD (.dict .nil) with
     | .dict h => templatesOk ((h.lookup "templates").getD (.list .nil))
     | _ => false) &&
    (match (kvs.lookup "examination").getD (.dict .nil) with
     | .dict e =>
       templatesOk
         (if truthy ((e.lookup "templates").getD .null) = true then
           (e.lookup "templates").getD .null
         else if truthy ((e.lookup "templetes").getD .null) = true then
           (e.lookup "templetes").getD .null
         else .list .nil)
     | _ => false) &&
    investigationOk ((kvs.lookup "investigation").getD (.list .nil))
  | _ => false

theorem processForms_ok (label : String) :
    ∀ (forms : List Val), (∀ fm ∈ forms, fm.isDict = true) →
      ∀ (fs : List String) (a : Audit), ∃ r, processForms label forms fs a = .ok r := by
  intro forms
  induction forms with
  | nil => intro _ fs a; exact ⟨(fs, a), rfl⟩
  | cons form rest ih =>
    intro hall fs a
    have hform := hall form (List.mem_cons_self _ _)
    cases form with
    | dict kvs =>
      obtain ⟨r, hr⟩ := ih (fun fm hm => hall fm (List.mem_cons_of_mem _ hm)) _ _
      refine ⟨r, ?_⟩
      simp only [processForms, pyGet, Bind.bind, Except.bind]
      exact hr
    | null | bool _ | int _ | str _ | list _ => simp [Val.isDict] at hform

theorem processSections_ok (defaultLabel : String) (resolver : Option (Val → String)) :
    ∀ (sections : List Val), (∀ s ∈ sections, sectionOk s = true) →
      ∀ (fs : List String) (a : Audit),
        ∃ r, processSections defaultLabel resolver sections fs a = .ok r := by
  intro sections
  induction sections with
  | nil => intro _ fs a; exact ⟨(fs, a), rfl⟩
  | cons sec rest ih =>
    intro hall fs a
    have hsec := hall sec (List.mem_cons_self _ _)
    cases sec with
    | dict kvs =>
      simp only [sectionOk] at hsec
      cases hfv : (kvs.lookup "forms").getD (.list .nil) with
      | list fl =>
        have hfl : ∀ fm ∈ fl.toList, fm.isDict = true := by
          rw [hfv] at hsec
          simp only [formsValOk, List.all_eq_true] at hsec
          exact hsec
        obtain ⟨mid, hmid⟩ := processForms_ok
          (resolveLabel resolver
            (if truthy ((kvs.lookup "section_name").getD .null) = true then
              (kvs.lookup "section_name").getD .null
            else if truthy ((kvs.lookup "sectionname").getD .null) = true then
              (kvs.lookup "sectionname").getD .null
            else .str defaultLabel))
          fl.toList hfl fs a
        obtain ⟨r, hr⟩ := ih (fun s hm => hall s (List.mem_cons_of_mem _ hm)) mid.1 mid.2
        refine ⟨r, ?_⟩
        simp [processSections, pyGet, pyGetD, pyIter, Bind.bind, Except.bind, hfv, hmid, hr]
      | null | bool _ | int _ | str _ | dict _ =>
        rw [hfv] at hsec
        simp [formsValOk] at hsec
    | null | bool _ | int _ | str _ | list _ => simp [sectionOk] at hsec

theorem processTemplateList_ok (defaultLabel : String) (resolver : Option (Val → String)) :
    ∀ (ts : List Val), (∀ t ∈ ts, templateOk t = true) →
      ∀ (fs : List String) (a : Audit),
        ∃ r, processTemplateList defaultLabel resolver ts fs a = .ok r := by
  intro ts
  induction ts with
  | nil => intro _ fs a; exact ⟨(fs, a), rfl⟩
  | cons template rest ih =>
    intro hall fs a
    have htpl := hall template (List.mem_cons_self _ _)
    have ihrest := fun (fs : List String) (a : Audit) =>
      ih (fun t hm => hall t (List.mem_cons_of_mem _ hm)) fs a
    cases template with
    | dict kvs =>
      simp only [templateOk] at htpl
      by_cases hsk : kvs.hasKey "sections" = true
      · rw [if_pos hsk] at htpl
        cases hsv : (kvs.lookup "sections").getD (.list .nil) with
        | list sl =>
          have hsl : ∀ sc ∈ sl.toList, sectionOk sc = true := by
            rw [hsv] at htpl
            simp only [sectionsValOk, List.all_eq_true] at htpl
            exact htpl
          obtain ⟨mid, hmid⟩ := processSections_ok defaultLabel resolver sl.toList hsl fs a
          obtain ⟨r, hr⟩ := ihrest mid.1 mid.2
          refine ⟨r, ?_⟩
          simp [processTemplateList, hsk, pyIter, Bind.bind, Except.bind, hsv, hmid, hr]
        | null | bool _ | int _ | str _ | dict _ =>
          rw [hsv] at htpl
          simp [sectionsValOk] at htpl
      · rw [if_neg hsk] at htpl
        by_cases hfk : kvs.hasKey "forms" = true
        · rw [if_pos hfk] at htpl
          cases hfv : (kvs.lookup "forms").getD (.list .nil) with
          | list fl =>
            have hfl : ∀ fm ∈ fl.toList, fm.isDict = true := by
              rw [hfv] at htpl
              simp only [formsValOk, List.all_eq_true] at htpl
              exact htpl
            obtain ⟨mid, hmid⟩ := processForms_ok defaultLabel fl.toList hfl fs a
            obtain ⟨r, hr⟩ := ihrest mid.1 mid.2
            refine ⟨r, ?_⟩
            simp [processTemplateList, hsk, hfk, pyIter, Bind.bind, Except.bind, hfv,
              hmid, hr]
          | null | bool _ | int _ | str _ | dict _ =>
            rw [hfv] at htpl
            simp [formsValOk] at htpl
        · by_cases hdk : kvs.hasKey "data" = true
          · obtain ⟨r, hr⟩ := ihrest
              (extract_data fs ((kvs.lookup "data").getD .null) defaultLabel a).1
              (extract_data fs ((kvs.lookup "data").getD .null) defaultLabel a).2
            exact ⟨r, by simp [processTemplateList, hsk, hfk, hdk, hr]⟩
          · obtain ⟨r, hr⟩ := ihrest fs a
            exact ⟨r, by simp [processTemplateList, hsk, hfk, hdk, hr]⟩
    | null | bool _ | int _ | str _ | list _ =>
      obtain ⟨r, hr⟩ := ihrest fs a
      exact ⟨r, by simp [processTemplateList, hr]⟩

theorem process_templates_ok (templates : Val) (defaultLabel : String)
    (resolver : Option (Val → String)) (fs : List String) (a : Audit)
    (h : templatesOk templates = true) :
    ∃ r, process_templates templates defaultLabel resolver fs a = .ok r := by
  cases templates with
  | list ts =>
    have hts : ∀ t ∈ ts.toList, templateOk t = true := by
      simp only [templatesOk, List.all_eq_true] at h
      exact h
    exact processTemplateList_ok defaultLabel resolver ts.toList hts fs a
  | null | bool _ | int _ | str _ | dict _ => exact ⟨(fs, a), rfl⟩

theorem extract_history_ok (kvs : ValDict) (a : Audit)
    (h : templatesOk ((kvs.lookup "templates").getD (.list .nil)) = true) :
    ∃ r, extract_history_findings (.dict kvs) a = .ok r := by
  obtain ⟨mid, hmid⟩ := process_templates_ok
    ((kvs.lookup "templates").getD (.list .nil)) "History" none [] a h
  exact ⟨(sortStr mid.1, mid.2), by simp [extract_history_findings, hmid, Except.map]⟩

theorem extract_examination_ok (kvs : ValDict) (a : Audit)
    (h : templatesOk
      (if truthy ((kvs.lookup "templates").getD .null) = true then
        (kvs.lookup "templates").getD .null
      else if truthy ((kvs.lookup "templetes").getD .null) = true then
        (kvs.lookup "templetes").getD .null
      else .list .nil) = true) :
    ∃ r, extract_examination_findings (.dict kvs) a = .ok r := by
  obtain ⟨mid, hmid⟩ := process_templates_ok _ "Examination"
    (some normalize_section_label) [] a h
  exact ⟨(sortStr mid.1, mid.2), by simp [extract_examination_findings, hmid, Except.map]⟩

theorem parseInvGo_names :
    ∀ (labs : List Val) (ps : List PLab) (a : Audit),
      (∀ lab ∈ labs, labNameOk lab = true) →
      (∀ p ∈ ps, nameValOk p.name = true) →
      ∀ p ∈ (parseInvGo labs ps a).1, nameValOk p.name = true := by
  intro labs
  induction labs with
  | nil => intro ps a _ hps p hp; exact hps p hp
  | cons lab rest ih =>
    intro ps a hall hps p hp
    have hlab := hall lab (List.mem_cons_self _ _)
    have hrest := fun lab hm => hall lab (List.mem_cons_of_mem _ hm)
    cases lab with
    | dict kvs =>
      simp only [parseInvGo] at hp
      split at hp
      · exact ih _ _ hrest hps p hp
      · refine ih _ _ hrest ?_ p hp
        intro q hq
        rcases List.mem_append.mp hq with hq | hq
        · exact hps q hq
        · simp only [List.mem_singleton] at hq
          subst hq
          simpa [labNameOk] using hlab
    | null | bool _ | int _ | str _ | list _ =>
      simp only [parseInvGo] at hp
      exact ih _ _ hrest hps p hp

theorem parse_investigations_names (inv : Val) (a : Audit)
    (h : investigationOk inv = true) :
    ∀ p ∈ (parse_investigations inv a).1, nameValOk p.name = true := by
  cases inv with
  | list labs =>
    refine parseInvGo_names labs.toList [] a ?_ (by simp)
    simp only [investigationOk, List.all_eq_true] at h
    exact h
  | null | bool _ | int _ | str _ | dict _ =>
    intro p hp
    simp only [parse_investigations] at hp
    exact absurd hp (List.not_mem_nil p)

theorem labNameStr_ok (n : Val) (h : nameValOk n = true) :
    ∃ s, labNameStr n = .ok s := by
  cases n with
  | str s =>
    by_cases ht : truthy (.str s) = true <;> simp [labNameStr, ht]
  | null | bool _ | int _ | list _ | dict _ =>
    simp only [nameValOk, Bool.not_eq_true'] at h
    simp [labNameStr, h]

theorem deriveLabsGo_ok_of_names :
    ∀ (labs : List PLab) (r : List String),
      (∀ lab ∈ labs, nameValOk lab.name = true) →
      ∃ out, deriveLabsGo labs r = .ok out := by
  intro labs
  induction labs with
  | nil => intro r _; exact ⟨r, rfl⟩
  | cons lab rest ih =>
    intro r hall
    obtain ⟨n, hn⟩ := labNameStr_ok lab.name (hall lab (List.mem_cons_self _ _))
    obtain ⟨out, hout⟩ := ih _ (fun l hm => hall l (List.mem_cons_of_mem _ hm))
    refine ⟨out, ?_⟩
    simp only [deriveLabsGo, Bind.bind, Except.bind, hn]
    exact hout

/-- C1 as amended: `build_llm_payload` raises on a non-dict context and on
non-dict history/examination values (per the counterexample); for every
`wellShaped` context — dict context, dict-or-absent history and
examination, walker-safe template containers, string-or-falsy lab
names — it returns a structurally valid payload without raising, degrading
all other malformed shapes to empty findings plus audit entries. -/
theorem claim_C1 (context : Val) (h : wellShaped context = true) :
    exIsOk (build_llm_payload context) = true := by
  cases context with
  | dict kvs =>
    simp only [wellShaped, Bool.and_eq_true] at h
    obtain ⟨⟨hh, he⟩, hi⟩ := h
    cases hhist : (kvs.lookup "history").getD (.dict .nil) with
    | dict hkvs =>
      cases hexam : (kvs.lookup "examination").getD (.dict .nil) with
      | dict ekvs =>
        rw [hhist] at hh
        rw [hexam] at he
        obtain ⟨r1, e1⟩ := extract_history_ok hkvs ⟨[], []⟩ hh
        obtain ⟨r2, e2⟩ := extract_examination_ok ekvs r1.2 he
        obtain ⟨rflags, e3⟩ := deriveLabsGo_ok_of_names
          (parse_investigations ((kvs.lookup "investigation").getD (.list .nil))
            (extract_investigation_findings
              ((kvs.lookup "investigation").getD (.list .nil)) r2.2).2).1
          (baseRisks r1.1 r2.1)
          (parse_investigations_names _ _ hi)
        simp [build_llm_payload, Bind.bind, Except.bind, pyGetD, hhist, hexam, e1, e2,
          derive_clinical_risks, e3, exIsOk, Except.map, pure, Except.pure]
      | null | bool _ | int _ | str _ | list _ =>
        rw [hexam] at he
        cases he
    | null | bool _ | int _ | str _ | list _ =>
      rw [hhist] at hh
      cases hh
  | null | bool _ | int _ | str _ | list _ => cases h

/-- C1 counterexample: a non-dict context, and a dict context whose
`history` is `None`, both raise (`AttributeError` at `.get`) instead of
degrading to an empty payload with audit entries. -/
theorem claim_C1_counterexample :
    exIsOk (build_llm_payload (.str "oops")) = false ∧
    exIsOk (build_llm_payload (.dict (.cons "history" .null .nil))) = false :=
  ⟨rfl, rfl⟩

/-- The well-shaped integration sample of the repository's test suite
(history with diabetes, misspelled examination templates with laterality
sections, one HbA1c lab). -/
def sampleCtx : Val := dl [
  ("history", dl [("templates", vl [dl [("sections", vl [dl [
      ("section_name", .str "Past Medical History"),
      ("forms", vl [dl [("data", dl [
        ("conditions", vl [.str "Type 2 Diabetes Mellitus", .str "Hypertension"]),
        ("comments", .str "")])]])]])]])]),
  ("examination", dl [("templetes", vl [dl [("sections", vl [
      dl [("sectionname", .str "Right Eye (R/OD)"),
          ("forms", vl [dl [("data", dl [("appearance_symptoms",
            vl [.str "Phthisis Bulbi"])])]])],
      dl [("sectionname", .str "Left Eye (L/OS)"),
          ("forms", vl [dl [("data", dl [("posterior_segment",
            .str "Mild NPDR changes")])]])]])]])]),
  ("investigation", vl [dl [("name", .str "HbA1c"), ("value", .str "8.2"),
      ("unit", .str "%"), ("reference", .str "4.0-5.6")]])]

/-- Witness for C1 at the test-suite sample context. -/
theorem claim_C1_witness :
    wellShaped sampleCtx = true ∧ exIsOk (build_llm_payload sampleCtx) = true :=
  ⟨by decide, claim_C1 sampleCtx (by decide)⟩

end EmrSpec
